import Mathlib

/-!
Verification of the `ts-transform-async-to-mobx-keystone-flow` TypeScript
transformer (`src/index.ts`).

The development is a shallow embedding of the transformer over a syntax tree
that mirrors the TypeScript AST fragment the transformer manipulates:
source files, class declarations, property and method declarations with
modifier lists (decorators and keywords), and the expression forms involved
in the rewrite (identifiers, calls, property accesses, string literals,
await / yield* expressions, arrow functions and function expressions).

Stateful aspects of the visitor (the `transformed` flag, the tracked
`className`, and the `functionsToAddDecoratorsTo` list) are threaded
explicitly; thrown errors are modelled with `Except`.
-/

set_option maxHeartbeats 4000000
set_option linter.unusedTactic false

namespace AutoFlow

/-- Type annotations: only type-reference nodes are relevant (the synthesized
`this` parameter is typed with a reference to the enclosing class name). -/
inductive TypeN where
  | typeRef (name : String)
  deriving DecidableEq, Repr

/-- A parameter declaration: a binding name and an optional type.
`x.name.getText()` is modelled by the `name` field. -/
structure Param where
  name : String
  type : Option TypeN
  deriving DecidableEq, Repr

/-- A property/method name: an identifier or a string-literal name. -/
inductive PropName where
  | pid (s : String)
  | pstr (s : String)
  deriving DecidableEq, Repr

mutual

/-- Expressions of the TypeScript fragment handled by the transformer. -/
inductive Expr where
  | ident (text : String)
  | genIdent (text : String)
  | strLit (s : String)
  | propAccess (obj : Expr) (name : String)
  | call (callee : Expr) (args : List Expr)
  | awaitE (e : Expr)
  | yieldStar (e : Expr)
  | arrowFn (mods : List ModifierL) (params : List Param) (retType : Option TypeN) (body : FnBody)
  | funcExpr (mods : List ModifierL) (isGen : Bool) (name : Option String)
      (params : List Param) (retType : Option TypeN) (body : FnBody)

/-- `ts.ModifierLike`: the async keyword, other keyword modifiers, or a
decorator carrying an expression. -/
inductive ModifierL where
  | asyncKw
  | otherKw (text : String)
  | decorator (e : Expr)

/-- The body of an arrow function (a concise expression or a block) or of a
function expression.  `ts.factory.createFunctionExpression` performs no
runtime check on the body argument, so a concise body may flow into a
function expression (the source casts with `as ts.Block`); the embedding
keeps `FnBody` in both places, mirroring that. -/
inductive FnBody where
  | expr (e : Expr)
  | block (stmts : List Stmt)

/-- Statements: class declarations, the synthesized namespace import,
expression statements and return statements. -/
inductive Stmt where
  | classDecl (mods : List ModifierL) (name : Option String) (members : List ClassMember)
  | importNs (binding : Expr) (pkg : String)
  | exprStmt (e : Expr)
  | returnStmt (e : Option Expr)

/-- Class members: property declarations and method declarations. -/
inductive ClassMember where
  | propertyDecl (mods : List ModifierL) (name : PropName) (q : Bool)
      (type : Option TypeN) (init : Option Expr)
  | methodDecl (mods : List ModifierL) (isGen : Bool) (name : PropName) (q : Bool)
      (params : List Param) (retType : Option TypeN) (body : Option (List Stmt))

end

/-- A source file: its path and its top-level statements. -/
structure SourceFile where
  fileName : String
  statements : List Stmt

/-- The transformer options (`Options` in the source, received as
`Partial<Options>`, so both fields may be absent). -/
structure TOptions where
  mobxKeystonePackage : Option String
  generateModelNameFromFilename : Option (String → String)

/-- Errors thrown by the transformer:
`notAsync` is the `Could not resolve expression as async function` throw in
`transformFunction` (carrying the rendered function text);
`undefNode` models the JavaScript `TypeError` raised when
`ts.isArrowFunction` is applied to `node.arguments[0]` of a zero-argument
trigger call (reading `.kind` of `undefined`);
`resolveFail` is the `Could not resolve property declaration` throw. -/
inductive TErr where
  | notAsync (rendered : String)
  | undefNode
  | resolveFail
  deriving DecidableEq, Repr

/-- Error prefix applied by `errorMessage` in the source. -/
def errorMessage (message : String) : String :=
  "[ts-transform-async-to-mobx-keystone-flow]: " ++ message

/-- The trigger name constant `autoFlow`. -/
def autoFlow : String := "autoFlow"

/-- The target flow decorator name constant `modelFlow`. -/
def modelFlow : String := "modelFlow"

/-- Substring test on character lists: JavaScript `String.prototype.includes`. -/
def subAux : List Char → List Char → Bool
  | needle, [] => needle.isEmpty
  | needle, c :: rest => needle.isPrefixOf (c :: rest) || subAux needle rest

/-- `s.includes sub` of JavaScript strings. -/
def strContains (s sub : String) : Bool := subAux sub.data s.data

/-- `s.startsWith pre` of JavaScript strings. -/
def strStartsWith (s pre : String) : Bool := pre.data.isPrefixOf s.data

mutual

/-- Source text of an expression, modelling `getText()` / `getFullText()` on
parsed nodes. -/
def renderE : Expr → String
  | .ident t => t
  | .genIdent t => t
  | .strLit s => "\"" ++ s ++ "\""
  | .propAccess o n => renderE o ++ "." ++ n
  | .call c args => renderE c ++ "(" ++ renderEList args ++ ")"
  | .awaitE e => "await " ++ renderE e
  | .yieldStar e => "yield* " ++ renderE e
  | .arrowFn mods params _ body =>
      renderModList mods ++ "(" ++ renderParams params ++ ") => " ++ renderB body
  | .funcExpr mods g n params _ body =>
      renderModList mods ++ "function" ++ (if g then "* " else " ") ++
        (n.getD "") ++ "(" ++ renderParams params ++ ") " ++ renderB body

/-- Comma-separated rendering of argument lists. -/
def renderEList : List Expr → String
  | [] => ""
  | [e] => renderE e
  | e :: rest => renderE e ++ ", " ++ renderEList rest

/-- Source text of a modifier, modelling `ModifierLike.getText()`. -/
def renderMod : ModifierL → String
  | .asyncKw => "async"
  | .otherKw t => t
  | .decorator e => "@" ++ renderE e

/-- Space-separated rendering of modifier lists. -/
def renderModList : List ModifierL → String
  | [] => ""
  | m :: rest => renderMod m ++ " " ++ renderModList rest

/-- Comma-separated rendering of parameter lists. -/
def renderParams : List Param → String
  | [] => ""
  | [p] => p.name
  | p :: rest => p.name ++ ", " ++ renderParams rest

/-- Rendering of function bodies. -/
def renderB : FnBody → String
  | .expr e => renderE e
  | .block ss => "\x7b " ++ renderSList ss ++ "\x7d"

/-- Rendering of statement lists. -/
def renderSList : List Stmt → String
  | [] => ""
  | s :: rest => renderS s ++ "; " ++ renderSList rest

/-- Rendering of statements. -/
def renderS : Stmt → String
  | .classDecl mods n members =>
      renderModList mods ++ "class " ++ (n.getD "") ++
        " \x7b " ++ renderMemList members ++ "\x7d"
  | .importNs b pkg => "import * as " ++ renderE b ++ " from \"" ++ pkg ++ "\""
  | .exprStmt e => renderE e
  | .returnStmt (some e) => "return " ++ renderE e
  | .returnStmt none => "return"

/-- Rendering of member lists. -/
def renderMemList : List ClassMember → String
  | [] => ""
  | m :: rest => renderMember m ++ "; " ++ renderMemList rest

/-- Rendering of class members. -/
def renderMember : ClassMember → String
  | .propertyDecl mods n _ _ init =>
      renderModList mods ++ (match n with | .pid s => s | .pstr s => "\"" ++ s ++ "\"") ++
        (match init with | some e => " = " ++ renderE e | none => "")
  | .methodDecl mods g n _ params _ body =>
      renderModList mods ++ (if g then "*" else "") ++
        (match n with | .pid s => s | .pstr s => "\"" ++ s ++ "\"") ++
        "(" ++ renderParams params ++ ")" ++
        (match body with | some ss => " \x7b " ++ renderSList ss ++ "\x7d" | none => "")

end

/-- `getText()` of a property/method name node. -/
def propNameText : PropName → String
  | .pid s => s
  | .pstr s => "\"" ++ s ++ "\""

/-- `ts.isIdentifier(e)` together with the identifier's `text`; generated
identifiers (from `createUniqueName`) are identifiers whose text is the base
name. -/
def isIdentText : Expr → Option String
  | .ident t => some t
  | .genIdent t => some t
  | _ => none

/-- `isSpecificDecorator`: the modifier is a decorator whose expression is an
identifier with exactly the given text. -/
def isSpecificDecorator (decorator : ModifierL) (name : String) : Bool :=
  match decorator with
  | .decorator e =>
      match isIdentText e with
      | some t => t = name
      | none => false
  | _ => false

/-- `hasDecorator`: `!!decorators?.filter(x => isSpecificDecorator(x, name)).length`. -/
def hasDecorator (decorators : List ModifierL) (name : String) : Bool :=
  !(decorators.filter (fun x => isSpecificDecorator x name)).isEmpty

/-- Whether a modifier is the `async` keyword (`x.kind === SyntaxKind.AsyncKeyword`). -/
def isAsyncKw : ModifierL → Bool
  | .asyncKw => true
  | _ => false

/-- `ensureDecorators`: drops the async keyword and any `@autoFlow` decorator
(the source's `reduce` accumulating `[...acc, x]` is the filter of the kept
modifiers), then prepends the `modelFlow` decorator unless a decorator whose
expression is the bare identifier `modelFlow` is already present. -/
def ensureDecorators (modifiers : List ModifierL) (modelFlowExpr : Expr) : List ModifierL :=
  let res := modifiers.filter (fun x => !(isAsyncKw x) && !(isSpecificDecorator x autoFlow))
  if hasDecorator res modelFlow then res else .decorator modelFlowExpr :: res

/-- Whether a modifier list carries the async keyword
(`hasSyntacticModifier(node, ModifierFlags.Async)`). -/
def hasAsyncMod (mods : List ModifierL) : Bool := mods.any isAsyncKw

/-- `ts.isAsyncFunction` (the internal TypeScript helper): for arrow functions
and function expressions, the body is present, there is no asterisk token, and
the async modifier is set; false on every other node kind. -/
def isAsyncFunction : Expr → Bool
  | .arrowFn mods _ _ _ => hasAsyncMod mods
  | .funcExpr mods g _ _ _ _ => !g && hasAsyncMod mods
  | _ => false

/-- `ts.isArrowFunction(fn) || ts.isFunctionExpression(fn)`. -/
def isArrowOrFuncExpr : Expr → Bool
  | .arrowFn .. => true
  | .funcExpr .. => true
  | _ => false

/-- `ts.isFunctionLike` restricted to expressions: arrow functions and
function expressions. -/
def isFunctionLikeE : Expr → Bool
  | .arrowFn .. => true
  | .funcExpr .. => true
  | _ => false

/-- The unit-scoped generated identifier: `createUniqueName("mobxKs", ...)`.
All references below resolve against this single identifier. -/
def mobxNamespaceImport : Expr := .genIdent "mobxKs"

/-- `createMobxKsPropertyAccessExpression`. -/
def createMobxKsPropertyAccessExpression (ns : Expr) (name : String) : Expr :=
  .propAccess ns name

/-- The `_async` adapter reference (`_asyncExpression` in the source). -/
def asyncExpression : Expr :=
  createMobxKsPropertyAccessExpression mobxNamespaceImport "_async"

/-- The `_await` adapter reference (`_awaitExpression` in the source). -/
def awaitExpression : Expr :=
  createMobxKsPropertyAccessExpression mobxNamespaceImport "_await"

/-- The `modelFlow` decorator expression (`modelFlowExpression` in the source). -/
def modelFlowExpression : Expr :=
  createMobxKsPropertyAccessExpression mobxNamespaceImport modelFlow

/-- The `model` decorator expression (`modelExpression` in the source). -/
def modelExpression : Expr :=
  createMobxKsPropertyAccessExpression mobxNamespaceImport "model"

mutual

/-- `replaceYieldAndCheckNested`: rewrites `await E` to
`yield* _awaitExpression(E)` (the operand `E` is copied verbatim, it is not
itself visited), returns any function-like node unchanged (nested functions
are not visited), and otherwise descends into every child. -/
def replaceYieldE : Expr → Expr
  | .awaitE e => .yieldStar (.call awaitExpression [e])
  | .arrowFn mods params retType body => .arrowFn mods params retType body
  | .funcExpr mods g n params retType body => .funcExpr mods g n params retType body
  | .ident t => .ident t
  | .genIdent t => .genIdent t
  | .strLit s => .strLit s
  | .propAccess o n => .propAccess (replaceYieldE o) n
  | .call c args => .call (replaceYieldE c) (replaceYieldEList args)
  | .yieldStar e => .yieldStar (replaceYieldE e)

/-- Child traversal of `replaceYieldAndCheckNested` over argument lists. -/
def replaceYieldEList : List Expr → List Expr
  | [] => []
  | e :: rest => replaceYieldE e :: replaceYieldEList rest

/-- Child traversal of `replaceYieldAndCheckNested` over modifiers. -/
def replaceYieldMod : ModifierL → ModifierL
  | .asyncKw => .asyncKw
  | .otherKw t => .otherKw t
  | .decorator e => .decorator (replaceYieldE e)

/-- Child traversal of `replaceYieldAndCheckNested` over modifier lists. -/
def replaceYieldModList : List ModifierL → List ModifierL
  | [] => []
  | m :: rest => replaceYieldMod m :: replaceYieldModList rest

/-- `replaceYieldAndCheckNested` applied to a function body node: a concise
expression body is visited directly; a block is not await and not
function-like, so traversal descends into its statements. -/
def replaceYieldBody : FnBody → FnBody
  | .expr e => .expr (replaceYieldE e)
  | .block ss => .block (replaceYieldSList ss)

/-- Child traversal of `replaceYieldAndCheckNested` over statement lists. -/
def replaceYieldSList : List Stmt → List Stmt
  | [] => []
  | s :: rest => replaceYieldS s :: replaceYieldSList rest

/-- Child traversal of `replaceYieldAndCheckNested` over statements. -/
def replaceYieldS : Stmt → Stmt
  | .classDecl mods n members =>
      .classDecl (replaceYieldModList mods) n (replaceYieldMemList members)
  | .importNs b pkg => .importNs (replaceYieldE b) pkg
  | .exprStmt e => .exprStmt (replaceYieldE e)
  | .returnStmt (some e) => .returnStmt (some (replaceYieldE e))
  | .returnStmt none => .returnStmt none

/-- Child traversal of `replaceYieldAndCheckNested` over member lists. -/
def replaceYieldMemList : List ClassMember → List ClassMember
  | [] => []
  | m :: rest => replaceYieldMember m :: replaceYieldMemList rest

/-- Child traversal of `replaceYieldAndCheckNested` over class members: a
method declaration is function-like, so it is returned unchanged; a property
declaration is not, so traversal descends into its children. -/
def replaceYieldMember : ClassMember → ClassMember
  | .propertyDecl mods name q ty (some e) =>
      .propertyDecl (replaceYieldModList mods) name q ty (some (replaceYieldE e))
  | .propertyDecl mods name q ty none =>
      .propertyDecl (replaceYieldModList mods) name q ty none
  | .methodDecl mods g name q params retType body =>
      .methodDecl mods g name q params retType body

end

/-- `createNewFunctionBlock`: applies `replaceYieldAndCheckNested` to the
function's body and rebuilds the same function value around the new body
(`updateArrowFunction` / `updateFunctionExpression` keep every other field).
The source's parameter type restricts the argument to arrow functions and
function expressions; other expressions are returned unchanged (unreachable). -/
def createNewFunctionBlock : Expr → Expr
  | .arrowFn mods params retType body => .arrowFn mods params retType (replaceYieldBody body)
  | .funcExpr mods g n params retType body =>
      .funcExpr mods g n params retType (replaceYieldBody body)
  | e => e

/-- Parameters of a function value (arrow function or function expression). -/
def fnParams : Expr → List Param
  | .arrowFn _ params _ _ => params
  | .funcExpr _ _ _ params _ _ => params
  | _ => []

/-- Body of a function value (arrow function or function expression). -/
def fnBody : Expr → FnBody
  | .arrowFn _ _ _ body => body
  | .funcExpr _ _ _ _ _ body => body
  | _ => .block []

/-- `transformFunction`: throws unless the function is async-qualified, then
wraps the function's body in
`asyncIdentifier(function* (this: className, ...params) { body })`,
synthesizing the `this` parameter only when none is present. -/
def transformFunction (fn : Expr) (asyncIdentifier : Expr) (className : String) :
    Except TErr Expr :=
  if isAsyncFunction fn then
    let params := fnParams fn
    let hasThisParam := params.any (fun x => x.name = "this")
    let additionalParams : List Param :=
      if hasThisParam then [] else [{ name := "this", type := some (.typeRef className) }]
    .ok (.call asyncIdentifier
      [.funcExpr [] true none (additionalParams ++ params) none (fnBody fn)])
  else
    .error (.notAsync (renderE fn))

/-- `transformPropertyDeclaration`: rebuilds the property with
`ensureDecorators` applied to its modifiers and the given new initializer. -/
def transformPropertyDeclaration (mods : List ModifierL) (name : PropName) (q : Bool)
    (ty : Option TypeN) (newFunctionBlock : Option Expr) (modelFlowExpr : Expr) :
    ClassMember :=
  .propertyDecl (ensureDecorators mods modelFlowExpr) name q ty newFunctionBlock

/-- The class-trigger test: `x.getText().includes("autoModel")` on a modifier. -/
def autoModelHit (m : ModifierL) : Bool := strContains (renderMod m) "autoModel"

/-- Visitor context: the configured model-name derivation function and the
file name of the unit being visited. -/
structure VisitCtx where
  deriveName : Option (String → String)
  fileName : String

/-- `options?.generateModelNameFromFilename ? f(resSource.fileName) : resSource.fileName`. -/
def deriveModelName (cx : VisitCtx) : String :=
  match cx.deriveName with
  | some f => f cx.fileName
  | none => cx.fileName

/-- Mutable visitor state: the `transformed` flag, the tracked enclosing class
name, and the `functionsToAddDecoratorsTo` accumulator. -/
structure VState where
  transformed : Bool
  className : String
  functionsToAddDecoratorsTo : List String

/-- Rewriting of a class declaration's modifier list when the `autoModel`
trigger fires: the first modifier whose text contains `autoModel` is removed
(`filter (x !== autoModelDecorator)` on the node found by `find`) and a
`@model(modelName)` decorator is appended. -/
def visitClassMods (cx : VisitCtx) (mods : List ModifierL) : List ModifierL :=
  mods.eraseP autoModelHit ++
    [.decorator (.call modelExpression [.strLit (deriveModelName cx)])]

/-- The `ts.isPropertyDeclaration(newNode) ? newNode : undefined` cast in the
post-hoc decorator-injection branch, exposing the property's fields. -/
def asPropertyDecl : ClassMember →
    Option (List ModifierL × PropName × Bool × Option TypeN × Option Expr)
  | .propertyDecl mods name q ty init => some (mods, name, q, ty, init)
  | _ => none

/-- The inner visitor passed to `visitEachChild` on a property declaration:
among the direct children only the initializer can be a call expression, so
only it can match.  When the initializer is a call whose callee is an
identifier starting with `autoFlow`, the property's name is recorded in
`functionsToAddDecoratorsTo` (the parent is a property declaration), and if
the first argument is a function value it is converted; a zero-argument call
makes `ts.isArrowFunction(undefined)` crash. -/
def visitPropertyInner (st : VState) (name : PropName) (init : Option Expr) :
    Except TErr (Option Expr × VState) :=
  match init with
  | some (.call callee args) =>
      match isIdentText callee with
      | some t =>
          if strStartsWith t autoFlow then
            match args with
            | [] => .error .undefNode
            | fn :: _ =>
                if isArrowOrFuncExpr fn then
                  match transformFunction (createNewFunctionBlock fn) asyncExpression
                      st.className with
                  | .error e => .error e
                  | .ok r =>
                      .ok (some r,
                        { transformed := true, className := st.className,
                          functionsToAddDecoratorsTo :=
                            st.functionsToAddDecoratorsTo ++ [propNameText name] })
                else
                  .ok (some (.call callee args),
                    { transformed := st.transformed, className := st.className,
                      functionsToAddDecoratorsTo :=
                        st.functionsToAddDecoratorsTo ++ [propNameText name] })
          else .ok (some (.call callee args), st)
      | none => .ok (some (.call callee args), st)
  | other => .ok (other, st)

/-- The post-hoc decorator-injection branch (the body of the
`functionsToAddDecoratorsTo.includes(...)` conditional): casts the visited
node back to a property declaration — throwing
`Could not resolve property declaration` when the cast fails — and rebuilds
it with `transformPropertyDeclaration` on `newNode.initializer`. -/
def postHocDecorate (newNode : ClassMember) (init' : Option Expr) (st : VState) :
    Except TErr (ClassMember × VState) :=
  match asPropertyDecl newNode with
  | none => .error .resolveFail
  | some (m2, n2, q2, t2, _) =>
      .ok (transformPropertyDeclaration m2 n2 q2 t2 init' modelFlowExpression, st)

/-- `ts.isIdentifier(node.name) ? node.name : undefined` — the function
expression synthesized from a method keeps the method's name only when it is
an identifier. -/
def methodFnName : PropName → Option String
  | .pid s => some s
  | _ => none

/-- The decorated-property conversion (the branch guarded by
`isPropertyDeclaration && hasDecorator(autoFlow) && initializer` with a
function-valued initializer, also reached by `@autoFlow` methods after their
repackaging as properties): sets `transformed`, rewrites the function's body,
wraps it via `transformFunction` and rebuilds the property. -/
def convertAnnotatedProperty (st : VState) (mods : List ModifierL) (name : PropName)
    (q : Bool) (ty : Option TypeN) (fn : Expr) : Except TErr (ClassMember × VState) :=
  match transformFunction (createNewFunctionBlock fn) asyncExpression st.className with
  | .error e => .error e
  | .ok r =>
      .ok (transformPropertyDeclaration mods name q ty (some r) modelFlowExpression,
        { st with transformed := true })

mutual

/-- Termination measure on expressions for the main visitor (constructor
count, independent of string contents). -/
def msE : Expr → Nat
  | .ident _ => 1
  | .genIdent _ => 1
  | .strLit _ => 1
  | .propAccess o _ => msE o + 1
  | .call c args => msE c + msEList args + 1
  | .awaitE e => msE e + 1
  | .yieldStar e => msE e + 1
  | .arrowFn mods _ _ body => msModL mods + msB body + 1
  | .funcExpr mods _ _ _ _ body => msModL mods + msB body + 1

/-- Termination measure on expression lists. -/
def msEList : List Expr → Nat
  | [] => 0
  | e :: rest => msE e + msEList rest + 1

/-- Termination measure on modifiers. -/
def msMod : ModifierL → Nat
  | .decorator e => msE e + 1
  | _ => 1

/-- Termination measure on modifier lists. -/
def msModL : List ModifierL → Nat
  | [] => 0
  | m :: rest => msMod m + msModL rest + 1

/-- Termination measure on function bodies. -/
def msB : FnBody → Nat
  | .expr e => msE e + 1
  | .block ss => msSL ss + 1

/-- Termination measure on statements.  The class-declaration weight leaves
room for the constant-size `@model(...)` decorator the visitor appends before
descending into the modifier list. -/
def msS : Stmt → Nat
  | .classDecl mods _ members => msModL mods + msMemL members + 20
  | .importNs b _ => msE b + 1
  | .exprStmt e => msE e + 1
  | .returnStmt (some e) => msE e + 1
  | .returnStmt none => 1

/-- Termination measure on statement lists. -/
def msSL : List Stmt → Nat
  | [] => 0
  | s :: rest => msS s + msSL rest + 1

/-- Termination measure on class members. -/
def msMem : ClassMember → Nat
  | .propertyDecl mods _ _ _ (some e) => msModL mods + msE e + 5
  | .propertyDecl mods _ _ _ none => msModL mods + 5
  | .methodDecl mods _ _ _ _ _ (some ss) => msModL mods + msSL ss + 5
  | .methodDecl mods _ _ _ _ _ none => msModL mods + 5

/-- Termination measure on member lists. -/
def msMemL : List ClassMember → Nat
  | [] => 0
  | m :: rest => msMem m + msMemL rest + 1

end

/-- Termination measure on optional initializers. -/
def msOptE : Option Expr → Nat
  | some e => msE e + 1
  | none => 0

/-- Termination measure on optional method bodies. -/
def msOptSL : Option (List Stmt) → Nat
  | some ss => msSL ss + 1
  | none => 0

theorem msModL_append (l1 l2 : List ModifierL) :
    msModL (l1 ++ l2) = msModL l1 + msModL l2 := by
  induction l1 with
  | nil => simp [msModL]
  | cons m rest ih => simp [msModL, ih]; omega

theorem msModL_eraseP_le (p : ModifierL → Bool) (l : List ModifierL) :
    msModL (List.eraseP p l) ≤ msModL l := by
  induction l with
  | nil => simp [List.eraseP]
  | cons m rest ih =>
      rw [List.eraseP_cons]
      by_cases h : p m
      · simp [h, msModL]; omega
      · simp [h, msModL]; omega

mutual

/-- The main visitor on statements.  A class declaration records its name in
`className`, fires the `autoModel` rewrite when some modifier's text contains
`autoModel` (setting `transformed`), and then undergoes the default
`visitEachChild` descent (modifiers first, then members).  An import
declaration has no matching children.  Other statements undergo the default
descent. -/
def visitStmt (cx : VisitCtx) (st : VState) : Stmt → Except TErr (Stmt × VState)
  | .classDecl mods cname members =>
      match mods.find? autoModelHit with
      | some _ =>
          match visitModList cx
              { st with className := cname.getD "", transformed := true }
              (visitClassMods cx mods) with
          | .error e => .error e
          | .ok (mods2, st2) =>
              match visitMemberList cx st2 members with
              | .error e => .error e
              | .ok (members', st3) => .ok (.classDecl mods2 cname members', st3)
      | none =>
          match visitModList cx { st with className := cname.getD "" } mods with
          | .error e => .error e
          | .ok (mods2, st2) =>
              match visitMemberList cx st2 members with
              | .error e => .error e
              | .ok (members', st3) => .ok (.classDecl mods2 cname members', st3)
  | .importNs b pkg => .ok (.importNs b pkg, st)
  | .exprStmt e =>
      match visitExpr cx st e with
      | .error er => .error er
      | .ok (e', st1) => .ok (.exprStmt e', st1)
  | .returnStmt (some e) =>
      match visitExpr cx st e with
      | .error er => .error er
      | .ok (e', st1) => .ok (.returnStmt (some e'), st1)
  | .returnStmt none => .ok (.returnStmt none, st)
termination_by s => msS s
decreasing_by all_goals (first
  | (simp only [msS, msSL, msMem, msMemL, msE, msEList, msMod, msModL, msB, msOptE, msOptSL]; omega)
  | (have h := msModL_eraseP_le autoModelHit mods;
     simp only [visitClassMods, modelExpression, createMobxKsPropertyAccessExpression,
       mobxNamespaceImport, msModL_append, msS, msModL, msMod, msE, msEList]; omega))

/-- Sequential visit of a statement list (children are visited in order, the
visitor's mutable state threads left to right). -/
def visitStmtList (cx : VisitCtx) (st : VState) :
    List Stmt → Except TErr (List Stmt × VState)
  | [] => .ok ([], st)
  | s :: rest =>
      match visitStmt cx st s with
      | .error e => .error e
      | .ok (s', st1) =>
          match visitStmtList cx st1 rest with
          | .error e => .error e
          | .ok (rest', st2) => .ok (s' :: rest', st2)
termination_by l => msSL l
decreasing_by all_goals
  (subst_vars; simp only [msS, msSL, msMem, msMemL, msE, msEList, msMod, msModL, msB, msOptE, msOptSL]; omega)

/-- The main visitor on class members.

For a property declaration: first `visitEachChild` with the inner trigger-call
lambda (`visitPropertyInner`); then, if the property's name is in
`functionsToAddDecoratorsTo`, the post-hoc decorator-injection branch returns
the property rebuilt by `transformPropertyDeclaration` (with the guarded
`Could not resolve property declaration` throw); otherwise, a property
carrying an `@autoFlow` decorator with a function-valued initializer is
converted; otherwise the default descent runs (on the original node, which the
inner visit left unchanged in this case).

For a method declaration carrying an `@autoFlow` decorator with a body: it is
first repackaged as a property whose initializer is a function expression with
the method's modifiers, then the decorated-property branch always applies to
it (the initializer is a function expression), so `transformed` is set and
the conversion runs.  Other methods undergo the default descent. -/
def visitMember (cx : VisitCtx) (st : VState) : ClassMember → Except TErr (ClassMember × VState)
  | .propertyDecl mods name q ty init =>
      match visitPropertyInner st name init with
      | .error e => .error e
      | .ok (init', st1) =>
          if st1.functionsToAddDecoratorsTo.contains (propNameText name) then
            postHocDecorate (.propertyDecl mods name q ty init') init' st1
          else
            match init with
            | some fn =>
                if hasDecorator mods autoFlow && isArrowOrFuncExpr fn then
                  convertAnnotatedProperty st1 mods name q ty fn
                else visitPropertyChildren cx st1 mods name q ty (some fn)
            | none => visitPropertyChildren cx st1 mods name q ty none
  | .methodDecl mods g name q params retType body? =>
      match body? with
      | some body =>
          if hasDecorator mods autoFlow then
            convertAnnotatedProperty st mods name q retType
              (.funcExpr mods g (methodFnName name) params retType (.block body))
          else visitMethodChildren cx st mods g name q params retType (some body)
      | none => visitMethodChildren cx st mods g name q params retType none
termination_by m => msMem m
decreasing_by all_goals
  (subst_vars; simp only [msS, msSL, msMem, msMemL, msE, msEList, msMod, msModL, msB, msOptE, msOptSL]; omega)

/-- Default `visitEachChild` descent on a property declaration: modifiers,
then the initializer. -/
def visitPropertyChildren (cx : VisitCtx) (st : VState) (mods : List ModifierL)
    (name : PropName) (q : Bool) (ty : Option TypeN) :
    Option Expr → Except TErr (ClassMember × VState)
  | none =>
      match visitModList cx st mods with
      | .error e => .error e
      | .ok (mods', st1) => .ok (.propertyDecl mods' name q ty none, st1)
  | some e =>
      match visitModList cx st mods with
      | .error er => .error er
      | .ok (mods', st1) =>
          match visitExpr cx st1 e with
          | .error er => .error er
          | .ok (e', st2) => .ok (.propertyDecl mods' name q ty (some e'), st2)
termination_by init => msModL mods + msOptE init + 2
decreasing_by all_goals
  (subst_vars; simp only [msS, msSL, msMem, msMemL, msE, msEList, msMod, msModL, msB, msOptE, msOptSL]; omega)

/-- Default `visitEachChild` descent on a method declaration: modifiers, then
the body's statements. -/
def visitMethodChildren (cx : VisitCtx) (st : VState) (mods : List ModifierL)
    (g : Bool) (name : PropName) (q : Bool) (params : List Param)
    (retType : Option TypeN) :
    Option (List Stmt) → Except TErr (ClassMember × VState)
  | none =>
      match visitModList cx st mods with
      | .error e => .error e
      | .ok (mods', st1) => .ok (.methodDecl mods' g name q params retType none, st1)
  | some ss =>
      match visitModList cx st mods with
      | .error e => .error e
      | .ok (mods', st1) =>
          match visitStmtList cx st1 ss with
          | .error e => .error e
          | .ok (ss', st2) => .ok (.methodDecl mods' g name q params retType (some ss'), st2)
termination_by body? => msModL mods + msOptSL body? + 2
decreasing_by all_goals
  (subst_vars; simp only [msS, msSL, msMem, msMemL, msE, msEList, msMod, msModL, msB, msOptE, msOptSL]; omega)

/-- Sequential visit of a member list. -/
def visitMemberList (cx : VisitCtx) (st : VState) :
    List ClassMember → Except TErr (List ClassMember × VState)
  | [] => .ok ([], st)
  | m :: rest =>
      match visitMember cx st m with
      | .error e => .error e
      | .ok (m', st1) =>
          match visitMemberList cx st1 rest with
          | .error e => .error e
          | .ok (rest', st2) => .ok (m' :: rest', st2)
termination_by l => msMemL l
decreasing_by all_goals
  (subst_vars; simp only [msS, msSL, msMem, msMemL, msE, msEList, msMod, msModL, msB, msOptE, msOptSL]; omega)

/-- The main visitor on expressions: no rewrite predicate matches an
expression node, so this is the default `visitEachChild` descent (class,
property and method declarations can only reappear below through statement
lists inside function bodies). -/
def visitExpr (cx : VisitCtx) (st : VState) : Expr → Except TErr (Expr × VState)
  | .ident t => .ok (.ident t, st)
  | .genIdent t => .ok (.genIdent t, st)
  | .strLit s => .ok (.strLit s, st)
  | .propAccess o n =>
      match visitExpr cx st o with
      | .error e => .error e
      | .ok (o', st1) => .ok (.propAccess o' n, st1)
  | .call c args =>
      match visitExpr cx st c with
      | .error e => .error e
      | .ok (c', st1) =>
          match visitExprList cx st1 args with
          | .error e => .error e
          | .ok (args', st2) => .ok (.call c' args', st2)
  | .awaitE e =>
      match visitExpr cx st e with
      | .error er => .error er
      | .ok (e', st1) => .ok (.awaitE e', st1)
  | .yieldStar e =>
      match visitExpr cx st e with
      | .error er => .error er
      | .ok (e', st1) => .ok (.yieldStar e', st1)
  | .arrowFn mods params retType body =>
      match visitModList cx st mods with
      | .error e => .error e
      | .ok (mods', st1) =>
          match visitBody cx st1 body with
          | .error e => .error e
          | .ok (body', st2) => .ok (.arrowFn mods' params retType body', st2)
  | .funcExpr mods g n params retType body =>
      match visitModList cx st mods with
      | .error e => .error e
      | .ok (mods', st1) =>
          match visitBody cx st1 body with
          | .error e => .error e
          | .ok (body', st2) => .ok (.funcExpr mods' g n params retType body', st2)
termination_by e => msE e
decreasing_by all_goals
  (subst_vars; simp only [msS, msSL, msMem, msMemL, msE, msEList, msMod, msModL, msB, msOptE, msOptSL]; omega)

/-- Sequential visit of an expression list. -/
def visitExprList (cx : VisitCtx) (st : VState) :
    List Expr → Except TErr (List Expr × VState)
  | [] => .ok ([], st)
  | e :: rest =>
      match visitExpr cx st e with
      | .error er => .error er
      | .ok (e', st1) =>
          match visitExprList cx st1 rest with
          | .error er => .error er
          | .ok (rest', st2) => .ok (e' :: rest', st2)
termination_by l => msEList l
decreasing_by all_goals
  (subst_vars; simp only [msS, msSL, msMem, msMemL, msE, msEList, msMod, msModL, msB, msOptE, msOptSL]; omega)

/-- The main visitor on a modifier: a decorator's expression is a child and is
visited; keyword modifiers have no children. -/
def visitModifier (cx : VisitCtx) (st : VState) : ModifierL → Except TErr (ModifierL × VState)
  | .asyncKw => .ok (.asyncKw, st)
  | .otherKw t => .ok (.otherKw t, st)
  | .decorator e =>
      match visitExpr cx st e with
      | .error er => .error er
      | .ok (e', st1) => .ok (.decorator e', st1)
termination_by m => msMod m
decreasing_by all_goals
  (subst_vars; simp only [msS, msSL, msMem, msMemL, msE, msEList, msMod, msModL, msB, msOptE, msOptSL]; omega)

/-- Sequential visit of a modifier list. -/
def visitModList (cx : VisitCtx) (st : VState) :
    List ModifierL → Except TErr (List ModifierL × VState)
  | [] => .ok ([], st)
  | m :: rest =>
      match visitModifier cx st m with
      | .error e => .error e
      | .ok (m', st1) =>
          match visitModList cx st1 rest with
          | .error e => .error e
          | .ok (rest', st2) => .ok (m' :: rest', st2)
termination_by l => msModL l
decreasing_by all_goals
  (subst_vars; simp only [msS, msSL, msMem, msMemL, msE, msEList, msMod, msModL, msB, msOptE, msOptSL]; omega)

/-- The main visitor on a function body. -/
def visitBody (cx : VisitCtx) (st : VState) : FnBody → Except TErr (FnBody × VState)
  | .expr e =>
      match visitExpr cx st e with
      | .error er => .error er
      | .ok (e', st1) => .ok (.expr e', st1)
  | .block ss =>
      match visitStmtList cx st ss with
      | .error e => .error e
      | .ok (ss', st1) => .ok (.block ss', st1)
termination_by b => msB b
decreasing_by all_goals
  (subst_vars; simp only [msS, msSL, msMem, msMemL, msE, msEList, msMod, msModL, msB, msOptE, msOptSL]; omega)

end

/-- `options?.mobxKeystonePackage || "mobx-keystone"` (JavaScript `||`: the
empty string is falsy and also selects the default). -/
def pkgName (options : TOptions) : String :=
  match options.mobxKeystonePackage with
  | some s => if s = "" then "mobx-keystone" else s
  | none => "mobx-keystone"

/-- `addImportMobxStatement`: prepends
`import * as mobxKs from "<pkg>"` to the unit's statements. -/
def addImportMobxStatement (source : SourceFile) (mobxPackage : String) : SourceFile :=
  { source with statements := .importNs mobxNamespaceImport mobxPackage :: source.statements }

/-- `visitSourceFile`: prepends the namespace import, runs the visitor over
every top-level statement of that working copy, and returns the rewritten
unit when the `transformed` flag was set, the original `source` otherwise. -/
def visitSourceFile (options : TOptions) (source : SourceFile) : Except TErr SourceFile :=
  match visitStmtList
      { deriveName := options.generateModelNameFromFilename, fileName := source.fileName }
      { transformed := false, className := "", functionsToAddDecoratorsTo := [] }
      (addImportMobxStatement source (pkgName options)).statements with
  | .error e => .error e
  | .ok (stmts', st) =>
      if st.transformed then .ok { fileName := source.fileName, statements := stmts' }
      else .ok source

/-- Modifier list of a function value (arrow function or function expression). -/
def fnMods : Expr → List ModifierL
  | .arrowFn mods _ _ _ => mods
  | .funcExpr mods _ _ _ _ _ => mods
  | _ => []

/-- Options of `createTransformer()` invoked with no argument. -/
def defaultOptions : TOptions :=
  { mobxKeystonePackage := none, generateModelNameFromFilename := none }

/-- Visitor context of a default-configured run on a unit at path `x.ts`. -/
def defaultCtx : VisitCtx := { deriveName := none, fileName := "x.ts" }

/-- The initial visitor state of a run. -/
def initState : VState :=
  { transformed := false, className := "", functionsToAddDecoratorsTo := [] }

/-- The end-to-end input unit: a class `Test` with the property
`fn = autoFlow(async (input) => { return await callApi(input); })` at path
`x.ts`. -/
def unitEndToEnd : SourceFile :=
  { fileName := "x.ts",
    statements := [.classDecl [] (some "Test")
      [.propertyDecl [] (.pid "fn") false none
        (some (.call (.ident "autoFlow")
          [.arrowFn [.asyncKw] [{ name := "input", type := none }] none
            (.block [.returnStmt (some (.awaitE (.call (.ident "callApi") [.ident "input"])))])]))]] }

/-- The expected end-to-end output: the namespace import of `mobx-keystone`
prepended, and `fn` rewritten to
`@mobxKs.modelFlow fn = mobxKs._async(function* (this: Test, input) { return yield* mobxKs._await(callApi(input)); })`. -/
def expectedEndToEnd : SourceFile :=
  { fileName := "x.ts",
    statements := [.importNs mobxNamespaceImport "mobx-keystone",
      .classDecl [] (some "Test")
        [.propertyDecl [.decorator modelFlowExpression] (.pid "fn") false none
          (some (.call asyncExpression
            [.funcExpr [] true none
              [{ name := "this", type := some (.typeRef "Test") },
               { name := "input", type := none }] none
              (.block [.returnStmt (some (.yieldStar
                (.call awaitExpression [.call (.ident "callApi") [.ident "input"]])))])]))]] }

/-- C1: for a unit containing
`fn = autoFlow(async (input) => { return await callApi(input); })` under the
default configuration, the transform returns a unit whose first statement is a
namespace import of `"mobx-keystone"` bound to the generated identifier, and
whose `fn` property initializer is the async adapter applied to a generator
function with parameter list `[this: Test, input]` whose body replaces the
top-level `await` with `yield* mobxKs._await(callApi(input))`. -/
theorem end_to_end_default_config :
    visitSourceFile defaultOptions unitEndToEnd = .ok expectedEndToEnd ∧
    expectedEndToEnd.statements.head? = some (.importNs mobxNamespaceImport "mobx-keystone") := by
  constructor
  · simp [visitSourceFile, addImportMobxStatement, pkgName, defaultOptions, unitEndToEnd,
      expectedEndToEnd, visitStmtList, visitStmt, visitMember, visitMemberList,
      visitPropertyInner, visitModList, visitModifier, visitExprList, visitExpr, visitBody,
      isIdentText, strStartsWith, propNameText, transformFunction, createNewFunctionBlock,
      replaceYieldBody, replaceYieldSList, replaceYieldS, replaceYieldE, replaceYieldEList,
      isAsyncFunction, hasAsyncMod, isArrowOrFuncExpr, fnParams, fnBody, asPropertyDecl,
      postHocDecorate, convertAnnotatedProperty,
      transformPropertyDeclaration, ensureDecorators, hasDecorator, isSpecificDecorator,
      isAsyncKw, autoFlow, modelFlow, autoModelHit, renderMod, strContains, subAux,
      visitClassMods, deriveModelName, mobxNamespaceImport, modelFlowExpression,
      asyncExpression, awaitExpression, modelExpression, createMobxKsPropertyAccessExpression]
  · simp [expectedEndToEnd]

/-- C6: `ensureDecorators` is not idempotent.  A first application to the
empty modifier list prepends the property-access-form `modelFlow` decorator;
`hasDecorator` only recognizes bare-identifier decorators, so a second
application fails to see it and prepends a second copy. -/
theorem ensureDecorators_not_idempotent :
    ensureDecorators [] modelFlowExpression = [.decorator modelFlowExpression] ∧
    ensureDecorators (ensureDecorators [] modelFlowExpression) modelFlowExpression
      = [.decorator modelFlowExpression, .decorator modelFlowExpression] ∧
    ensureDecorators (ensureDecorators [] modelFlowExpression) modelFlowExpression
      ≠ ensureDecorators [] modelFlowExpression := by
  refine ⟨?_, ?_, ?_⟩
  · simp [ensureDecorators, hasDecorator, isSpecificDecorator, isIdentText, isAsyncKw,
      modelFlowExpression, createMobxKsPropertyAccessExpression, mobxNamespaceImport,
      autoFlow, modelFlow]
  · simp [ensureDecorators, hasDecorator, isSpecificDecorator, isIdentText, isAsyncKw,
      modelFlowExpression, createMobxKsPropertyAccessExpression, mobxNamespaceImport,
      autoFlow, modelFlow]
  · simp [ensureDecorators, hasDecorator, isSpecificDecorator, isIdentText, isAsyncKw,
      modelFlowExpression, createMobxKsPropertyAccessExpression, mobxNamespaceImport,
      autoFlow, modelFlow]

/-- C7: a function value (arrow function or function expression) reaching
`transformFunction` without the async qualifier makes the transform throw
synchronously (the `Could not resolve expression as async function` error)
rather than return a result. -/
theorem transformFunction_throws_on_non_async (fn asyncIdentifier : Expr) (className : String)
    (h1 : isArrowOrFuncExpr fn = true) (h2 : hasAsyncMod (fnMods fn) = false) :
    transformFunction fn asyncIdentifier className = .error (.notAsync (renderE fn)) := by
  cases fn <;> simp_all [transformFunction, isAsyncFunction, fnMods, isArrowOrFuncExpr]

/-- Witness for C7 at a concrete non-async arrow function. -/
theorem transformFunction_throws_on_non_async_witness :
    transformFunction (.arrowFn [] [] none (.expr (.ident "x"))) asyncExpression "Test"
      = .error (.notAsync (renderE (.arrowFn [] [] none (.expr (.ident "x"))))) :=
  transformFunction_throws_on_non_async _ _ _ (by rfl) (by rfl)

/-- A method carrying the trigger decorator in call form `@autoFlow()`. -/
def methodCallFormDec : ClassMember :=
  .methodDecl [.decorator (.call (.ident "autoFlow") []), .asyncKw] false (.pid "m") false
    [] none (some [.returnStmt none])

/-- A property carrying the trigger decorator in call form `@autoFlow()` with
an async arrow initializer. -/
def propCallFormDec : ClassMember :=
  .propertyDecl [.decorator (.call (.ident "autoFlow") [])] (.pid "fn") false none
    (some (.arrowFn [.asyncKw] [] none (.expr (.ident "x"))))

/-- C10: the trigger decorator on methods and properties is recognized only
when the decorator's expression is a bare identifier; a call-form decorator
(`@autoFlow()`) or a property-access decorator never satisfies
`isSpecificDecorator`, and concretely a method and a property decorated with
`@autoFlow()` pass through the default descent unchanged. -/
theorem trigger_decorator_exact_identifier_only :
    (∀ (e : Expr) (args : List Expr) (name : String),
      isSpecificDecorator (.decorator (.call e args)) name = false) ∧
    (∀ (o : Expr) (s name : String),
      isSpecificDecorator (.decorator (.propAccess o s)) name = false) ∧
    visitMember defaultCtx initState methodCallFormDec = .ok (methodCallFormDec, initState) ∧
    visitMember defaultCtx initState propCallFormDec = .ok (propCallFormDec, initState) := by
  refine ⟨fun e args name => rfl, fun o s name => rfl, ?_, ?_⟩
  · simp [methodCallFormDec, visitMember, visitMethodChildren, visitModList, visitModifier,
      visitExpr, visitExprList, visitStmtList, visitStmt, hasDecorator, isSpecificDecorator,
      isIdentText, autoFlow, initState, defaultCtx]
  · simp [propCallFormDec, visitMember, visitPropertyInner, visitPropertyChildren,
      visitModList, visitModifier, visitExpr, visitExprList, visitBody, hasDecorator,
      isSpecificDecorator, isIdentText, autoFlow, initState, defaultCtx, propNameText]

/-- A function-like node: a function-valued expression or a method member.
Used to collect the maximal function-like subtrees of a converted body. -/
inductive FnLike where
  | ofExpr (e : Expr)
  | ofMember (m : ClassMember)

mutual

/-- The maximal function-like subtrees of an expression: the function-like
nodes reachable without crossing another function-like boundary, each taken
whole.  A function-like root is itself the single element. -/
def nestedFnsE : Expr → List FnLike
  | .arrowFn mods params retType body => [.ofExpr (.arrowFn mods params retType body)]
  | .funcExpr mods g n params retType body =>
      [.ofExpr (.funcExpr mods g n params retType body)]
  | .ident _ => []
  | .genIdent _ => []
  | .strLit _ => []
  | .propAccess o _ => nestedFnsE o
  | .call c args => nestedFnsE c ++ nestedFnsEList args
  | .awaitE e => nestedFnsE e
  | .yieldStar e => nestedFnsE e

/-- Maximal function-like subtrees of an expression list. -/
def nestedFnsEList : List Expr → List FnLike
  | [] => []
  | e :: rest => nestedFnsE e ++ nestedFnsEList rest

/-- Maximal function-like subtrees of a modifier. -/
def nestedFnsMod : ModifierL → List FnLike
  | .decorator e => nestedFnsE e
  | _ => []

/-- Maximal function-like subtrees of a modifier list. -/
def nestedFnsModList : List ModifierL → List FnLike
  | [] => []
  | m :: rest => nestedFnsMod m ++ nestedFnsModList rest

/-- Maximal function-like subtrees of a function body. -/
def nestedFnsB : FnBody → List FnLike
  | .expr e => nestedFnsE e
  | .block ss => nestedFnsSList ss

/-- Maximal function-like subtrees of a statement. -/
def nestedFnsS : Stmt → List FnLike
  | .classDecl mods _ members => nestedFnsModList mods ++ nestedFnsMemList members
  | .importNs b _ => nestedFnsE b
  | .exprStmt e => nestedFnsE e
  | .returnStmt (some e) => nestedFnsE e
  | .returnStmt none => []

/-- Maximal function-like subtrees of a statement list. -/
def nestedFnsSList : List Stmt → List FnLike
  | [] => []
  | s :: rest => nestedFnsS s ++ nestedFnsSList rest

/-- Maximal function-like subtrees of a class member: a method declaration is
itself function-like and is the single element; a property declaration is
not, so its children are collected. -/
def nestedFnsMember : ClassMember → List FnLike
  | .propertyDecl mods _ _ _ (some e) => nestedFnsModList mods ++ nestedFnsE e
  | .propertyDecl mods _ _ _ none => nestedFnsModList mods
  | .methodDecl mods g name q params retType body =>
      [.ofMember (.methodDecl mods g name q params retType body)]

/-- Maximal function-like subtrees of a member list. -/
def nestedFnsMemList : List ClassMember → List FnLike
  | [] => []
  | m :: rest => nestedFnsMember m ++ nestedFnsMemList rest

end

mutual

theorem replaceYieldE_nestedFns (e : Expr) :
    nestedFnsE (replaceYieldE e) = nestedFnsE e := by
  cases e with
  | awaitE e =>
      simp [replaceYieldE, nestedFnsE, nestedFnsEList, awaitExpression,
        createMobxKsPropertyAccessExpression, mobxNamespaceImport]
  | arrowFn mods params retType body => simp [replaceYieldE]
  | funcExpr mods g n params retType body => simp [replaceYieldE]
  | ident t => simp [replaceYieldE]
  | genIdent t => simp [replaceYieldE]
  | strLit s => simp [replaceYieldE]
  | propAccess o n =>
      simp [replaceYieldE, nestedFnsE, replaceYieldE_nestedFns o]
  | call c args =>
      simp [replaceYieldE, nestedFnsE, replaceYieldE_nestedFns c,
        replaceYieldEList_nestedFns args]
  | yieldStar e =>
      simp [replaceYieldE, nestedFnsE, replaceYieldE_nestedFns e]

theorem replaceYieldEList_nestedFns (l : List Expr) :
    nestedFnsEList (replaceYieldEList l) = nestedFnsEList l := by
  cases l with
  | nil => simp [replaceYieldEList]
  | cons e rest =>
      simp [replaceYieldEList, nestedFnsEList, replaceYieldE_nestedFns e,
        replaceYieldEList_nestedFns rest]

theorem replaceYieldMod_nestedFns (m : ModifierL) :
    nestedFnsMod (replaceYieldMod m) = nestedFnsMod m := by
  cases m with
  | asyncKw => simp [replaceYieldMod]
  | otherKw t => simp [replaceYieldMod]
  | decorator e => simp [replaceYieldMod, nestedFnsMod, replaceYieldE_nestedFns e]

theorem replaceYieldModList_nestedFns (l : List ModifierL) :
    nestedFnsModList (replaceYieldModList l) = nestedFnsModList l := by
  cases l with
  | nil => simp [replaceYieldModList]
  | cons m rest =>
      simp [replaceYieldModList, nestedFnsModList, replaceYieldMod_nestedFns m,
        replaceYieldModList_nestedFns rest]

theorem replaceYieldBody_nestedFns (b : FnBody) :
    nestedFnsB (replaceYieldBody b) = nestedFnsB b := by
  cases b with
  | expr e => simp [replaceYieldBody, nestedFnsB, replaceYieldE_nestedFns e]
  | block ss => simp [replaceYieldBody, nestedFnsB, replaceYieldSList_nestedFns ss]

theorem replaceYieldS_nestedFns (s : Stmt) :
    nestedFnsS (replaceYieldS s) = nestedFnsS s := by
  cases s with
  | classDecl mods n members =>
      simp [replaceYieldS, nestedFnsS, replaceYieldModList_nestedFns mods,
        replaceYieldMemList_nestedFns members]
  | importNs b pkg => simp [replaceYieldS, nestedFnsS, replaceYieldE_nestedFns b]
  | exprStmt e => simp [replaceYieldS, nestedFnsS, replaceYieldE_nestedFns e]
  | returnStmt oe =>
      cases oe with
      | some e => simp [replaceYieldS, nestedFnsS, replaceYieldE_nestedFns e]
      | none => simp [replaceYieldS]

theorem replaceYieldSList_nestedFns (l : List Stmt) :
    nestedFnsSList (replaceYieldSList l) = nestedFnsSList l := by
  cases l with
  | nil => simp [replaceYieldSList]
  | cons s rest =>
      simp [replaceYieldSList, nestedFnsSList, replaceYieldS_nestedFns s,
        replaceYieldSList_nestedFns rest]

theorem replaceYieldMember_nestedFns (m : ClassMember) :
    nestedFnsMember (replaceYieldMember m) = nestedFnsMember m := by
  cases m with
  | propertyDecl mods name q ty init =>
      cases init with
      | some e =>
          simp [replaceYieldMember, nestedFnsMember, replaceYieldModList_nestedFns mods,
            replaceYieldE_nestedFns e]
      | none =>
          simp [replaceYieldMember, nestedFnsMember, replaceYieldModList_nestedFns mods]
  | methodDecl mods g name q params retType body => simp [replaceYieldMember]

theorem replaceYieldMemList_nestedFns (l : List ClassMember) :
    nestedFnsMemList (replaceYieldMemList l) = nestedFnsMemList l := by
  cases l with
  | nil => simp [replaceYieldMemList]
  | cons m rest =>
      simp [replaceYieldMemList, nestedFnsMemList, replaceYieldMember_nestedFns m,
        replaceYieldMemList_nestedFns rest]

end

/-- C3: the suspension rewriter stops at the boundary of nested function-like
nodes.  Every function-like node the rewriter reaches is returned completely
unchanged, and more generally the rewrite of a converted body preserves every
maximal function-like subtree verbatim — hence every await expression inside a
nested function value is left unchanged, and only awaits belonging directly to
the outermost function body are converted. -/
theorem nested_function_isolation :
    (∀ b : FnBody, nestedFnsB (replaceYieldBody b) = nestedFnsB b) ∧
    (∀ e : Expr, isFunctionLikeE e = true → replaceYieldE e = e) := by
  constructor
  · exact replaceYieldBody_nestedFns
  · intro e he
    cases e <;> simp_all [isFunctionLikeE, replaceYieldE]

/-- Witness for C3: a nested async arrow function containing an await is left
untouched by the rewriter. -/
theorem nested_function_isolation_witness :
    replaceYieldE (.arrowFn [.asyncKw] [] none (.expr (.awaitE (.ident "x"))))
      = .arrowFn [.asyncKw] [] none (.expr (.awaitE (.ident "x"))) :=
  nested_function_isolation.2 _ (by rfl)

theorem transformFunction_ne (fn asyncIdentifier : Expr) (className : String) :
    transformFunction fn asyncIdentifier className ≠ .error .resolveFail := by
  cases h : isAsyncFunction fn <;> simp [transformFunction, h]

theorem visitPropertyInner_ne (st : VState) (name : PropName) (init : Option Expr) :
    visitPropertyInner st name init ≠ .error .resolveFail := by
  unfold visitPropertyInner
  split
  · split
    · split
      · split
        · simp
        · split
          · split
            · rename_i heq
              simp only [ne_eq, Except.error.injEq]
              intro hc
              exact transformFunction_ne _ _ _ (hc ▸ heq)
            · simp
          · simp
      · simp
    · simp
  · simp

theorem postHocDecorate_ne (mods : List ModifierL) (name : PropName) (q : Bool)
    (ty : Option TypeN) (init0 init' : Option Expr) (st : VState) :
    postHocDecorate (.propertyDecl mods name q ty init0) init' st ≠ .error .resolveFail := by
  simp [postHocDecorate, asPropertyDecl]

theorem convertAnnotatedProperty_ne (st : VState) (mods : List ModifierL) (name : PropName)
    (q : Bool) (ty : Option TypeN) (fn : Expr) :
    convertAnnotatedProperty st mods name q ty fn ≠ .error .resolveFail := by
  unfold convertAnnotatedProperty
  split
  · rename_i e heq
    simp only [ne_eq, Except.error.injEq]
    intro hc
    exact transformFunction_ne _ _ _ (hc ▸ heq)
  · simp

mutual

theorem nrfStmt (cx : VisitCtx) (st : VState) (s : Stmt) :
    visitStmt cx st s ≠ .error .resolveFail := by
  cases s with
  | classDecl mods cname members =>
      simp only [visitStmt]
      split
      · split
        · rename_i e heq
          simp only [ne_eq, Except.error.injEq]
          intro hc
          exact nrfModList cx _ (visitClassMods cx mods) (hc ▸ heq)
        · rename_i mods2 st2 heq
          split
          · rename_i e heq2
            simp only [ne_eq, Except.error.injEq]
            intro hc
            exact nrfMemberList cx st2 members (hc ▸ heq2)
          · simp
      · split
        · rename_i e heq
          simp only [ne_eq, Except.error.injEq]
          intro hc
          exact nrfModList cx _ mods (hc ▸ heq)
        · rename_i mods2 st2 heq
          split
          · rename_i e heq2
            simp only [ne_eq, Except.error.injEq]
            intro hc
            exact nrfMemberList cx st2 members (hc ▸ heq2)
          · simp
  | importNs b pkg => simp [visitStmt]
  | exprStmt e =>
      simp only [visitStmt]
      split
      · rename_i er heq
        simp only [ne_eq, Except.error.injEq]
        intro hc
        exact nrfExpr cx st e (hc ▸ heq)
      · simp
  | returnStmt oe =>
      cases oe with
      | some e =>
          simp only [visitStmt]
          split
          · rename_i er heq
            simp only [ne_eq, Except.error.injEq]
            intro hc
            exact nrfExpr cx st e (hc ▸ heq)
          · simp
      | none => simp [visitStmt]
termination_by msS s
decreasing_by all_goals (first
  | (simp only [msS, msSL, msMem, msMemL, msE, msEList, msMod, msModL, msB, msOptE, msOptSL]; omega)
  | (have h := msModL_eraseP_le autoModelHit mods;
     simp only [visitClassMods, modelExpression, createMobxKsPropertyAccessExpression,
       mobxNamespaceImport, msModL_append, msS, msModL, msMod, msE, msEList]; omega))

theorem nrfStmtList (cx : VisitCtx) (st : VState) (l : List Stmt) :
    visitStmtList cx st l ≠ .error .resolveFail := by
  cases l with
  | nil => simp [visitStmtList]
  | cons s rest =>
      simp only [visitStmtList]
      split
      · rename_i e heq
        simp only [ne_eq, Except.error.injEq]
        intro hc
        exact nrfStmt cx st s (hc ▸ heq)
      · rename_i s' st1 heq
        split
        · rename_i e heq2
          simp only [ne_eq, Except.error.injEq]
          intro hc
          exact nrfStmtList cx st1 rest (hc ▸ heq2)
        · simp
termination_by msSL l
decreasing_by all_goals
  (subst_vars; simp only [msS, msSL, msMem, msMemL, msE, msEList, msMod, msModL, msB, msOptE, msOptSL]; omega)

theorem nrfMember (cx : VisitCtx) (st : VState) (m : ClassMember) :
    visitMember cx st m ≠ .error .resolveFail := by
  cases m with
  | propertyDecl mods name q ty init =>
      cases init with
      | none =>
          simp only [visitMember]
          split
          · rename_i e heq
            simp only [ne_eq, Except.error.injEq]
            intro hc
            exact visitPropertyInner_ne st name none (hc ▸ heq)
          · rename_i init' st1 heq
            split
            · exact postHocDecorate_ne mods name q ty init' init' st1
            · intro hc
              exact nrfPropertyChildren cx st1 mods name q ty none hc
      | some e0 =>
          simp only [visitMember]
          split
          · rename_i e heq
            simp only [ne_eq, Except.error.injEq]
            intro hc
            exact visitPropertyInner_ne st name (some e0) (hc ▸ heq)
          · rename_i init' st1 heq
            split
            · exact postHocDecorate_ne mods name q ty init' init' st1
            · show (if hasDecorator mods autoFlow && isArrowOrFuncExpr e0 then
                  convertAnnotatedProperty st1 mods name q ty e0
                else visitPropertyChildren cx st1 mods name q ty (some e0)) ≠
                  .error .resolveFail
              by_cases hdec : (hasDecorator mods autoFlow && isArrowOrFuncExpr e0) = true
              · rw [if_pos hdec]
                exact convertAnnotatedProperty_ne st1 mods name q ty e0
              · rw [if_neg hdec]
                intro hc
                exact nrfPropertyChildren cx st1 mods name q ty (some e0) hc
  | methodDecl mods g name q params retType body? =>
      cases body? with
      | some body =>
          simp only [visitMember]
          by_cases hdec : (hasDecorator mods autoFlow) = true
          · rw [if_pos hdec]
            exact convertAnnotatedProperty_ne st mods name q retType _
          · rw [if_neg hdec]
            intro hc
            exact nrfMethodChildren cx st mods g name q params retType (some body) hc
      | none =>
          simp only [visitMember]
          intro hc
          exact nrfMethodChildren cx st mods g name q params retType none hc
termination_by msMem m
decreasing_by all_goals
  (subst_vars; simp only [msS, msSL, msMem, msMemL, msE, msEList, msMod, msModL, msB, msOptE, msOptSL]; omega)

theorem nrfPropertyChildren (cx : VisitCtx) (st : VState) (mods : List ModifierL)
    (name : PropName) (q : Bool) (ty : Option TypeN) (init : Option Expr) :
    visitPropertyChildren cx st mods name q ty init ≠ .error .resolveFail := by
  cases init with
  | none =>
      simp only [visitPropertyChildren]
      split
      · rename_i e heq
        simp only [ne_eq, Except.error.injEq]
        intro hc
        exact nrfModList cx st mods (hc ▸ heq)
      · simp
  | some e0 =>
      simp only [visitPropertyChildren]
      split
      · rename_i e heq
        simp only [ne_eq, Except.error.injEq]
        intro hc
        exact nrfModList cx st mods (hc ▸ heq)
      · rename_i mods' st1 heq
        split
        · rename_i e heq2
          simp only [ne_eq, Except.error.injEq]
          intro hc
          exact nrfExpr cx st1 e0 (hc ▸ heq2)
        · simp
termination_by msModL mods + msOptE init + 2
decreasing_by all_goals
  (subst_vars; simp only [msS, msSL, msMem, msMemL, msE, msEList, msMod, msModL, msB, msOptE, msOptSL]; omega)

theorem nrfMethodChildren (cx : VisitCtx) (st : VState) (mods : List ModifierL)
    (g : Bool) (name : PropName) (q : Bool) (params : List Param)
    (retType : Option TypeN) (body? : Option (List Stmt)) :
    visitMethodChildren cx st mods g name q params retType body? ≠ .error .resolveFail := by
  cases body? with
  | none =>
      simp only [visitMethodChildren]
      split
      · rename_i e heq
        simp only [ne_eq, Except.error.injEq]
        intro hc
        exact nrfModList cx st mods (hc ▸ heq)
      · simp
  | some ss =>
      simp only [visitMethodChildren]
      split
      · rename_i e heq
        simp only [ne_eq, Except.error.injEq]
        intro hc
        exact nrfModList cx st mods (hc ▸ heq)
      · rename_i mods' st1 heq
        split
        · rename_i e heq2
          simp only [ne_eq, Except.error.injEq]
          intro hc
          exact nrfStmtList cx st1 ss (hc ▸ heq2)
        · simp
termination_by msModL mods + msOptSL body? + 2
decreasing_by all_goals
  (subst_vars; simp only [msS, msSL, msMem, msMemL, msE, msEList, msMod, msModL, msB, msOptE, msOptSL]; omega)

theorem nrfMemberList (cx : VisitCtx) (st : VState) (l : List ClassMember) :
    visitMemberList cx st l ≠ .error .resolveFail := by
  cases l with
  | nil => simp [visitMemberList]
  | cons m rest =>
      simp only [visitMemberList]
      split
      · rename_i e heq
        simp only [ne_eq, Except.error.injEq]
        intro hc
        exact nrfMember cx st m (hc ▸ heq)
      · rename_i m' st1 heq
        split
        · rename_i e heq2
          simp only [ne_eq, Except.error.injEq]
          intro hc
          exact nrfMemberList cx st1 rest (hc ▸ heq2)
        · simp
termination_by msMemL l
decreasing_by all_goals
  (subst_vars; simp only [msS, msSL, msMem, msMemL, msE, msEList, msMod, msModL, msB, msOptE, msOptSL]; omega)

theorem nrfExpr (cx : VisitCtx) (st : VState) (e : Expr) :
    visitExpr cx st e ≠ .error .resolveFail := by
  cases e with
  | ident t => simp [visitExpr]
  | genIdent t => simp [visitExpr]
  | strLit s => simp [visitExpr]
  | propAccess o n =>
      simp only [visitExpr]
      split
      · rename_i er heq
        simp only [ne_eq, Except.error.injEq]
        intro hc
        exact nrfExpr cx st o (hc ▸ heq)
      · simp
  | call c args =>
      simp only [visitExpr]
      split
      · rename_i er heq
        simp only [ne_eq, Except.error.injEq]
        intro hc
        exact nrfExpr cx st c (hc ▸ heq)
      · rename_i c' st1 heq
        split
        · rename_i er heq2
          simp only [ne_eq, Except.error.injEq]
          intro hc
          exact nrfExprList cx st1 args (hc ▸ heq2)
        · simp
  | awaitE e =>
      simp only [visitExpr]
      split
      · rename_i er heq
        simp only [ne_eq, Except.error.injEq]
        intro hc
        exact nrfExpr cx st e (hc ▸ heq)
      · simp
  | yieldStar e =>
      simp only [visitExpr]
      split
      · rename_i er heq
        simp only [ne_eq, Except.error.injEq]
        intro hc
        exact nrfExpr cx st e (hc ▸ heq)
      · simp
  | arrowFn mods params retType body =>
      simp only [visitExpr]
      split
      · rename_i er heq
        simp only [ne_eq, Except.error.injEq]
        intro hc
        exact nrfModList cx st mods (hc ▸ heq)
      · rename_i mods' st1 heq
        split
        · rename_i er heq2
          simp only [ne_eq, Except.error.injEq]
          intro hc
          exact nrfBody cx st1 body (hc ▸ heq2)
        · simp
  | funcExpr mods g n params retType body =>
      simp only [visitExpr]
      split
      · rename_i er heq
        simp only [ne_eq, Except.error.injEq]
        intro hc
        exact nrfModList cx st mods (hc ▸ heq)
      · rename_i mods' st1 heq
        split
        · rename_i er heq2
          simp only [ne_eq, Except.error.injEq]
          intro hc
          exact nrfBody cx st1 body (hc ▸ heq2)
        · simp
termination_by msE e
decreasing_by all_goals
  (subst_vars; simp only [msS, msSL, msMem, msMemL, msE, msEList, msMod, msModL, msB, msOptE, msOptSL]; omega)

theorem nrfExprList (cx : VisitCtx) (st : VState) (l : List Expr) :
    visitExprList cx st l ≠ .error .resolveFail := by
  cases l with
  | nil => simp [visitExprList]
  | cons e rest =>
      simp only [visitExprList]
      split
      · rename_i er heq
        simp only [ne_eq, Except.error.injEq]
        intro hc
        exact nrfExpr cx st e (hc ▸ heq)
      · rename_i e' st1 heq
        split
        · rename_i er heq2
          simp only [ne_eq, Except.error.injEq]
          intro hc
          exact nrfExprList cx st1 rest (hc ▸ heq2)
        · simp
termination_by msEList l
decreasing_by all_goals
  (subst_vars; simp only [msS, msSL, msMem, msMemL, msE, msEList, msMod, msModL, msB, msOptE, msOptSL]; omega)

theorem nrfModifier (cx : VisitCtx) (st : VState) (m : ModifierL) :
    visitModifier cx st m ≠ .error .resolveFail := by
  cases m with
  | asyncKw => simp [visitModifier]
  | otherKw t => simp [visitModifier]
  | decorator e =>
      simp only [visitModifier]
      split
      · rename_i er heq
        simp only [ne_eq, Except.error.injEq]
        intro hc
        exact nrfExpr cx st e (hc ▸ heq)
      · simp
termination_by msMod m
decreasing_by all_goals
  (subst_vars; simp only [msS, msSL, msMem, msMemL, msE, msEList, msMod, msModL, msB, msOptE, msOptSL]; omega)

theorem nrfModList (cx : VisitCtx) (st : VState) (l : List ModifierL) :
    visitModList cx st l ≠ .error .resolveFail := by
  cases l with
  | nil => simp [visitModList]
  | cons m rest =>
      simp only [visitModList]
      split
      · rename_i er heq
        simp only [ne_eq, Except.error.injEq]
        intro hc
        exact nrfModifier cx st m (hc ▸ heq)
      · rename_i m' st1 heq
        split
        · rename_i er heq2
          simp only [ne_eq, Except.error.injEq]
          intro hc
          exact nrfModList cx st1 rest (hc ▸ heq2)
        · simp
termination_by msModL l
decreasing_by all_goals
  (subst_vars; simp only [msS, msSL, msMem, msMemL, msE, msEList, msMod, msModL, msB, msOptE, msOptSL]; omega)

theorem nrfBody (cx : VisitCtx) (st : VState) (b : FnBody) :
    visitBody cx st b ≠ .error .resolveFail := by
  cases b with
  | expr e =>
      simp only [visitBody]
      split
      · rename_i er heq
        simp only [ne_eq, Except.error.injEq]
        intro hc
        exact nrfExpr cx st e (hc ▸ heq)
      · simp
  | block ss =>
      simp only [visitBody]
      split
      · rename_i er heq
        simp only [ne_eq, Except.error.injEq]
        intro hc
        exact nrfStmtList cx st ss (hc ▸ heq)
      · simp
termination_by msB b
decreasing_by all_goals
  (subst_vars; simp only [msS, msSL, msMem, msMemL, msE, msEList, msMod, msModL, msB, msOptE, msOptSL]; omega)

end

/-- C9: the `Could not resolve property declaration` error is unreachable:
for every input unit and every configuration, the transform never fails with
it (whenever the post-hoc decorator-injection branch is entered, the visited
node is a property declaration, so the guarded throw can never fire). -/
theorem resolve_error_unreachable (options : TOptions) (source : SourceFile) :
    visitSourceFile options source ≠ .error .resolveFail := by
  unfold visitSourceFile
  split
  · rename_i e heq
    simp only [ne_eq, Except.error.injEq]
    intro hc
    exact nrfStmtList _ _ _ (hc ▸ heq)
  · split <;> simp

/-- Witness for C9 at a concrete unit. -/
theorem resolve_error_unreachable_witness :
    visitSourceFile defaultOptions unitEndToEnd ≠ .error .resolveFail :=
  resolve_error_unreachable defaultOptions unitEndToEnd

/-- Whether a call's callee fails the trigger test: it is not an identifier
whose text starts with `autoFlow`. -/
def calleeNotAutoFlow (c : Expr) : Bool :=
  match isIdentText c with
  | some t => !(strStartsWith t autoFlow)
  | none => true

mutual

/-- Trigger-freedom of an expression: no call whose callee is an identifier
starting with `autoFlow` anywhere, and the constraints of `noTrigModList`
on every modifier list. -/
def noTrigE : Expr → Bool
  | .ident _ => true
  | .genIdent _ => true
  | .strLit _ => true
  | .propAccess o _ => noTrigE o
  | .call c args => calleeNotAutoFlow c && noTrigE c && noTrigEList args
  | .awaitE e => noTrigE e
  | .yieldStar e => noTrigE e
  | .arrowFn mods _ _ body => noTrigModList mods && noTrigB body
  | .funcExpr mods _ _ _ _ body => noTrigModList mods && noTrigB body

/-- Trigger-freedom of an expression list. -/
def noTrigEList : List Expr → Bool
  | [] => true
  | e :: rest => noTrigE e && noTrigEList rest

/-- Trigger-freedom of a modifier: its text does not contain `autoModel`, it
is not a bare `@autoFlow` decorator, and its decorator expression (if any) is
itself trigger-free. -/
def noTrigMod : ModifierL → Bool
  | .asyncKw => !(autoModelHit .asyncKw)
  | .otherKw t => !(autoModelHit (.otherKw t))
  | .decorator e =>
      !(autoModelHit (.decorator e)) &&
        !(isSpecificDecorator (.decorator e) autoFlow) && noTrigE e

/-- Trigger-freedom of a modifier list. -/
def noTrigModList : List ModifierL → Bool
  | [] => true
  | m :: rest => noTrigMod m && noTrigModList rest

/-- Trigger-freedom of a function body. -/
def noTrigB : FnBody → Bool
  | .expr e => noTrigE e
  | .block ss => noTrigSL ss

/-- Trigger-freedom of a statement. -/
def noTrigS : Stmt → Bool
  | .classDecl mods _ members => noTrigModList mods && noTrigMemList members
  | .importNs _ _ => true
  | .exprStmt e => noTrigE e
  | .returnStmt (some e) => noTrigE e
  | .returnStmt none => true

/-- Trigger-freedom of a statement list. -/
def noTrigSL : List Stmt → Bool
  | [] => true
  | s :: rest => noTrigS s && noTrigSL rest

/-- Trigger-freedom of a class member. -/
def noTrigMember : ClassMember → Bool
  | .propertyDecl mods _ _ _ (some e) => noTrigModList mods && noTrigE e
  | .propertyDecl mods _ _ _ none => noTrigModList mods
  | .methodDecl mods _ _ _ _ _ (some ss) => noTrigModList mods && noTrigSL ss
  | .methodDecl mods _ _ _ _ _ none => noTrigModList mods

/-- Trigger-freedom of a member list. -/
def noTrigMemList : List ClassMember → Bool
  | [] => true
  | m :: rest => noTrigMember m && noTrigMemList rest

end

theorem noTrigMod_autoModelHit {m : ModifierL} (h : noTrigMod m = true) :
    autoModelHit m = false := by
  cases m with
  | asyncKw => simpa [noTrigMod] using h
  | otherKw t => simpa [noTrigMod] using h
  | decorator e =>
      cases hA : autoModelHit (.decorator e) with
      | false => rfl
      | true =>
          rw [noTrigMod, hA] at h
          simp at h

theorem noTrigModList_find?_none {mods : List ModifierL} (h : noTrigModList mods = true) :
    mods.find? autoModelHit = none := by
  induction mods with
  | nil => rfl
  | cons m rest ih =>
      rw [noTrigModList, Bool.and_eq_true] at h
      simp [List.find?, noTrigMod_autoModelHit h.1, ih h.2]

theorem noTrigMod_not_autoFlow {m : ModifierL} (h : noTrigMod m = true) :
    isSpecificDecorator m autoFlow = false := by
  cases m with
  | asyncKw => rfl
  | otherKw t => rfl
  | decorator e =>
      cases hB : isSpecificDecorator (.decorator e) autoFlow with
      | false => rfl
      | true =>
          rw [noTrigMod, hB] at h
          simp at h

theorem noTrigModList_hasDecorator_autoFlow {mods : List ModifierL}
    (h : noTrigModList mods = true) : hasDecorator mods autoFlow = false := by
  induction mods with
  | nil => rfl
  | cons m rest ih =>
      rw [noTrigModList, Bool.and_eq_true] at h
      simp only [hasDecorator, List.filter_cons, noTrigMod_not_autoFlow h.1] at *
      exact ih h.2

theorem noTrig_visitPropertyInner (st : VState) (name : PropName) (init : Option Expr)
    (h : (match init with | some e => noTrigE e | none => true) = true) :
    visitPropertyInner st name init = .ok (init, st) := by
  match init with
  | none => rfl
  | some (.ident t) => rfl
  | some (.genIdent t) => rfl
  | some (.strLit s) => rfl
  | some (.propAccess o n) => rfl
  | some (.awaitE e) => rfl
  | some (.yieldStar e) => rfl
  | some (.arrowFn mods params retType body) => rfl
  | some (.funcExpr mods g n params retType body) => rfl
  | some (.call c args) =>
      simp only [noTrigE, Bool.and_eq_true] at h
      have hcal := h.1.1
      rw [calleeNotAutoFlow] at hcal
      cases him : isIdentText c with
      | none => simp [visitPropertyInner, him]
      | some t =>
          rw [him] at hcal
          have hst : strStartsWith t autoFlow = false := by simpa using hcal
          simp [visitPropertyInner, him, hst]

mutual

theorem ntStmt (cx : VisitCtx) (st : VState) (s : Stmt) (h : noTrigS s = true) :
    ∃ s' cn, visitStmt cx st s = .ok (s',
      { transformed := st.transformed, className := cn,
        functionsToAddDecoratorsTo := st.functionsToAddDecoratorsTo }) := by
  cases s with
  | classDecl mods cname members =>
      simp only [noTrigS, Bool.and_eq_true] at h
      obtain ⟨hm, hmem⟩ := h
      obtain ⟨mods2, cn1, h1⟩ := ntModList cx { st with className := cname.getD "" } mods hm
      obtain ⟨members', cn2, h2⟩ := ntMemberList cx
        { transformed := st.transformed, className := cn1,
          functionsToAddDecoratorsTo := st.functionsToAddDecoratorsTo } members hmem
      exact ⟨.classDecl mods2 cname members', cn2,
        by simp [visitStmt, noTrigModList_find?_none hm, h1, h2]⟩
  | importNs b pkg => exact ⟨.importNs b pkg, st.className, by simp [visitStmt]⟩
  | exprStmt e =>
      simp only [noTrigS] at h
      obtain ⟨e', cn1, h1⟩ := ntExpr cx st e h
      exact ⟨.exprStmt e', cn1, by simp [visitStmt, h1]⟩
  | returnStmt oe =>
      cases oe with
      | some e =>
          simp only [noTrigS] at h
          obtain ⟨e', cn1, h1⟩ := ntExpr cx st e h
          exact ⟨.returnStmt (some e'), cn1, by simp [visitStmt, h1]⟩
      | none => exact ⟨.returnStmt none, st.className, by simp [visitStmt]⟩
termination_by msS s
decreasing_by all_goals
  (subst_vars; simp only [msS, msSL, msMem, msMemL, msE, msEList, msMod, msModL, msB, msOptE, msOptSL]; omega)

theorem ntStmtList (cx : VisitCtx) (st : VState) (l : List Stmt) (h : noTrigSL l = true) :
    ∃ l' cn, visitStmtList cx st l = .ok (l',
      { transformed := st.transformed, className := cn,
        functionsToAddDecoratorsTo := st.functionsToAddDecoratorsTo }) := by
  cases l with
  | nil => exact ⟨[], st.className, by simp [visitStmtList]⟩
  | cons s rest =>
      simp only [noTrigSL, Bool.and_eq_true] at h
      obtain ⟨s', cn1, h1⟩ := ntStmt cx st s h.1
      obtain ⟨rest', cn2, h2⟩ := ntStmtList cx
        { transformed := st.transformed, className := cn1,
          functionsToAddDecoratorsTo := st.functionsToAddDecoratorsTo } rest h.2
      exact ⟨s' :: rest', cn2, by simp [visitStmtList, h1, h2]⟩
termination_by msSL l
decreasing_by all_goals
  (subst_vars; simp only [msS, msSL, msMem, msMemL, msE, msEList, msMod, msModL, msB, msOptE, msOptSL]; omega)

theorem ntMember (cx : VisitCtx) (st : VState) (m : ClassMember)
    (h : noTrigMember m = true) :
    ∃ m' cn, visitMember cx st m = .ok (m',
      { transformed := st.transformed, className := cn,
        functionsToAddDecoratorsTo := st.functionsToAddDecoratorsTo }) := by
  cases m with
  | propertyDecl mods name q ty init =>
      cases init with
      | none =>
          simp only [noTrigMember] at h
          cases hcon : st.functionsToAddDecoratorsTo.contains (propNameText name) with
          | true =>
              have hmem : propNameText name ∈ st.functionsToAddDecoratorsTo := by
                simpa using hcon
              exact ⟨transformPropertyDeclaration mods name q ty none modelFlowExpression,
                st.className,
                by simp [visitMember, noTrig_visitPropertyInner st name none rfl, hmem,
                  postHocDecorate, asPropertyDecl]⟩
          | false =>
              have hmem : propNameText name ∉ st.functionsToAddDecoratorsTo := by
                simpa using hcon
              obtain ⟨m', cn1, h1⟩ := ntPropertyChildren cx st mods name q ty none h rfl
              exact ⟨m', cn1,
                by simp [visitMember, noTrig_visitPropertyInner st name none rfl, hmem, h1]⟩
      | some e0 =>
          simp only [noTrigMember, Bool.and_eq_true] at h
          obtain ⟨hm, he⟩ := h
          have hinner := noTrig_visitPropertyInner st name (some e0) he
          cases hcon : st.functionsToAddDecoratorsTo.contains (propNameText name) with
          | true =>
              have hmem : propNameText name ∈ st.functionsToAddDecoratorsTo := by
                simpa using hcon
              exact ⟨transformPropertyDeclaration mods name q ty (some e0) modelFlowExpression,
                st.className,
                by simp [visitMember, hinner, hmem, postHocDecorate, asPropertyDecl]⟩
          | false =>
              have hmem : propNameText name ∉ st.functionsToAddDecoratorsTo := by
                simpa using hcon
              obtain ⟨m', cn1, h1⟩ := ntPropertyChildren cx st mods name q ty (some e0) hm he
              exact ⟨m', cn1,
                by simp [visitMember, hinner, hmem,
                  noTrigModList_hasDecorator_autoFlow hm, h1]⟩
  | methodDecl mods g name q params retType body? =>
      cases body? with
      | some body =>
          simp only [noTrigMember, Bool.and_eq_true] at h
          obtain ⟨hm, hb⟩ := h
          obtain ⟨m', cn1, h1⟩ :=
            ntMethodChildren cx st mods g name q params retType (some body) hm hb
          exact ⟨m', cn1,
            by simp [visitMember, noTrigModList_hasDecorator_autoFlow hm, h1]⟩
      | none =>
          simp only [noTrigMember] at h
          obtain ⟨m', cn1, h1⟩ :=
            ntMethodChildren cx st mods g name q params retType none h rfl
          exact ⟨m', cn1, by simp [visitMember, h1]⟩
termination_by msMem m
decreasing_by all_goals
  (subst_vars; simp only [msS, msSL, msMem, msMemL, msE, msEList, msMod, msModL, msB, msOptE, msOptSL]; omega)

theorem ntPropertyChildren (cx : VisitCtx) (st : VState) (mods : List ModifierL)
    (name : PropName) (q : Bool) (ty : Option TypeN) (init : Option Expr)
    (hm : noTrigModList mods = true)
    (hi : (match init with | some e => noTrigE e | none => true) = true) :
    ∃ m' cn, visitPropertyChildren cx st mods name q ty init = .ok (m',
      { transformed := st.transformed, className := cn,
        functionsToAddDecoratorsTo := st.functionsToAddDecoratorsTo }) := by
  cases init with
  | none =>
      obtain ⟨mods', cn1, h1⟩ := ntModList cx st mods hm
      exact ⟨.propertyDecl mods' name q ty none, cn1, by simp [visitPropertyChildren, h1]⟩
  | some e0 =>
      obtain ⟨mods', cn1, h1⟩ := ntModList cx st mods hm
      obtain ⟨e', cn2, h2⟩ := ntExpr cx
        { transformed := st.transformed, className := cn1,
          functionsToAddDecoratorsTo := st.functionsToAddDecoratorsTo } e0 hi
      exact ⟨.propertyDecl mods' name q ty (some e'), cn2,
        by simp [visitPropertyChildren, h1, h2]⟩
termination_by msModL mods + msOptE init + 2
decreasing_by all_goals
  (subst_vars; simp only [msS, msSL, msMem, msMemL, msE, msEList, msMod, msModL, msB, msOptE, msOptSL]; omega)

theorem ntMethodChildren (cx : VisitCtx) (st : VState) (mods : List ModifierL)
    (g : Bool) (name : PropName) (q : Bool) (params : List Param)
    (retType : Option TypeN) (body? : Option (List Stmt))
    (hm : noTrigModList mods = true)
    (hb : (match body? with | some ss => noTrigSL ss | none => true) = true) :
    ∃ m' cn, visitMethodChildren cx st mods g name q params retType body? = .ok (m',
      { transformed := st.transformed, className := cn,
        functionsToAddDecoratorsTo := st.functionsToAddDecoratorsTo }) := by
  cases body? with
  | none =>
      obtain ⟨mods', cn1, h1⟩ := ntModList cx st mods hm
      exact ⟨.methodDecl mods' g name q params retType none, cn1,
        by simp [visitMethodChildren, h1]⟩
  | some ss =>
      obtain ⟨mods', cn1, h1⟩ := ntModList cx st mods hm
      obtain ⟨ss', cn2, h2⟩ := ntStmtList cx
        { transformed := st.transformed, className := cn1,
          functionsToAddDecoratorsTo := st.functionsToAddDecoratorsTo } ss hb
      exact ⟨.methodDecl mods' g name q params retType (some ss'), cn2,
        by simp [visitMethodChildren, h1, h2]⟩
termination_by msModL mods + msOptSL body? + 2
decreasing_by all_goals
  (subst_vars; simp only [msS, msSL, msMem, msMemL, msE, msEList, msMod, msModL, msB, msOptE, msOptSL]; omega)

theorem ntMemberList (cx : VisitCtx) (st : VState) (l : List ClassMember)
    (h : noTrigMemList l = true) :
    ∃ l' cn, visitMemberList cx st l = .ok (l',
      { transformed := st.transformed, className := cn,
        functionsToAddDecoratorsTo := st.functionsToAddDecoratorsTo }) := by
  cases l with
  | nil => exact ⟨[], st.className, by simp [visitMemberList]⟩
  | cons m rest =>
      simp only [noTrigMemList, Bool.and_eq_true] at h
      obtain ⟨m', cn1, h1⟩ := ntMember cx st m h.1
      obtain ⟨rest', cn2, h2⟩ := ntMemberList cx
        { transformed := st.transformed, className := cn1,
          functionsToAddDecoratorsTo := st.functionsToAddDecoratorsTo } rest h.2
      exact ⟨m' :: rest', cn2, by simp [visitMemberList, h1, h2]⟩
termination_by msMemL l
decreasing_by all_goals
  (subst_vars; simp only [msS, msSL, msMem, msMemL, msE, msEList, msMod, msModL, msB, msOptE, msOptSL]; omega)

theorem ntExpr (cx : VisitCtx) (st : VState) (e : Expr) (h : noTrigE e = true) :
    ∃ e' cn, visitExpr cx st e = .ok (e',
      { transformed := st.transformed, className := cn,
        functionsToAddDecoratorsTo := st.functionsToAddDecoratorsTo }) := by
  cases e with
  | ident t => exact ⟨.ident t, st.className, by simp [visitExpr]⟩
  | genIdent t => exact ⟨.genIdent t, st.className, by simp [visitExpr]⟩
  | strLit s => exact ⟨.strLit s, st.className, by simp [visitExpr]⟩
  | propAccess o n =>
      simp only [noTrigE] at h
      obtain ⟨o', cn1, h1⟩ := ntExpr cx st o h
      exact ⟨.propAccess o' n, cn1, by simp [visitExpr, h1]⟩
  | call c args =>
      simp only [noTrigE, Bool.and_eq_true] at h
      obtain ⟨c', cn1, h1⟩ := ntExpr cx st c h.1.2
      obtain ⟨args', cn2, h2⟩ := ntExprList cx
        { transformed := st.transformed, className := cn1,
          functionsToAddDecoratorsTo := st.functionsToAddDecoratorsTo } args h.2
      exact ⟨.call c' args', cn2, by simp [visitExpr, h1, h2]⟩
  | awaitE e =>
      simp only [noTrigE] at h
      obtain ⟨e', cn1, h1⟩ := ntExpr cx st e h
      exact ⟨.awaitE e', cn1, by simp [visitExpr, h1]⟩
  | yieldStar e =>
      simp only [noTrigE] at h
      obtain ⟨e', cn1, h1⟩ := ntExpr cx st e h
      exact ⟨.yieldStar e', cn1, by simp [visitExpr, h1]⟩
  | arrowFn mods params retType body =>
      simp only [noTrigE, Bool.and_eq_true] at h
      obtain ⟨mods', cn1, h1⟩ := ntModList cx st mods h.1
      obtain ⟨body', cn2, h2⟩ := ntBody cx
        { transformed := st.transformed, className := cn1,
          functionsToAddDecoratorsTo := st.functionsToAddDecoratorsTo } body h.2
      exact ⟨.arrowFn mods' params retType body', cn2, by simp [visitExpr, h1, h2]⟩
  | funcExpr mods g n params retType body =>
      simp only [noTrigE, Bool.and_eq_true] at h
      obtain ⟨mods', cn1, h1⟩ := ntModList cx st mods h.1
      obtain ⟨body', cn2, h2⟩ := ntBody cx
        { transformed := st.transformed, className := cn1,
          functionsToAddDecoratorsTo := st.functionsToAddDecoratorsTo } body h.2
      exact ⟨.funcExpr mods' g n params retType body', cn2, by simp [visitExpr, h1, h2]⟩
termination_by msE e
decreasing_by all_goals
  (subst_vars; simp only [msS, msSL, msMem, msMemL, msE, msEList, msMod, msModL, msB, msOptE, msOptSL]; omega)

theorem ntExprList (cx : VisitCtx) (st : VState) (l : List Expr) (h : noTrigEList l = true) :
    ∃ l' cn, visitExprList cx st l = .ok (l',
      { transformed := st.transformed, className := cn,
        functionsToAddDecoratorsTo := st.functionsToAddDecoratorsTo }) := by
  cases l with
  | nil => exact ⟨[], st.className, by simp [visitExprList]⟩
  | cons e rest =>
      simp only [noTrigEList, Bool.and_eq_true] at h
      obtain ⟨e', cn1, h1⟩ := ntExpr cx st e h.1
      obtain ⟨rest', cn2, h2⟩ := ntExprList cx
        { transformed := st.transformed, className := cn1,
          functionsToAddDecoratorsTo := st.functionsToAddDecoratorsTo } rest h.2
      exact ⟨e' :: rest', cn2, by simp [visitExprList, h1, h2]⟩
termination_by msEList l
decreasing_by all_goals
  (subst_vars; simp only [msS, msSL, msMem, msMemL, msE, msEList, msMod, msModL, msB, msOptE, msOptSL]; omega)

theorem ntModifier (cx : VisitCtx) (st : VState) (m : ModifierL) (h : noTrigMod m = true) :
    ∃ m' cn, visitModifier cx st m = .ok (m',
      { transformed := st.transformed, className := cn,
        functionsToAddDecoratorsTo := st.functionsToAddDecoratorsTo }) := by
  cases m with
  | asyncKw => exact ⟨.asyncKw, st.className, by simp [visitModifier]⟩
  | otherKw t => exact ⟨.otherKw t, st.className, by simp [visitModifier]⟩
  | decorator e =>
      rw [noTrigMod, Bool.and_eq_true, Bool.and_eq_true] at h
      obtain ⟨e', cn1, h1⟩ := ntExpr cx st e h.2
      exact ⟨.decorator e', cn1, by simp [visitModifier, h1]⟩
termination_by msMod m
decreasing_by all_goals
  (subst_vars; simp only [msS, msSL, msMem, msMemL, msE, msEList, msMod, msModL, msB, msOptE, msOptSL]; omega)

theorem ntModList (cx : VisitCtx) (st : VState) (l : List ModifierL)
    (h : noTrigModList l = true) :
    ∃ l' cn, visitModList cx st l = .ok (l',
      { transformed := st.transformed, className := cn,
        functionsToAddDecoratorsTo := st.functionsToAddDecoratorsTo }) := by
  cases l with
  | nil => exact ⟨[], st.className, by simp [visitModList]⟩
  | cons m rest =>
      simp only [noTrigModList, Bool.and_eq_true] at h
      obtain ⟨m', cn1, h1⟩ := ntModifier cx st m h.1
      obtain ⟨rest', cn2, h2⟩ := ntModList cx
        { transformed := st.transformed, className := cn1,
          functionsToAddDecoratorsTo := st.functionsToAddDecoratorsTo } rest h.2
      exact ⟨m' :: rest', cn2, by simp [visitModList, h1, h2]⟩
termination_by msModL l
decreasing_by all_goals
  (subst_vars; simp only [msS, msSL, msMem, msMemL, msE, msEList, msMod, msModL, msB, msOptE, msOptSL]; omega)

theorem ntBody (cx : VisitCtx) (st : VState) (b : FnBody) (h : noTrigB b = true) :
    ∃ b' cn, visitBody cx st b = .ok (b',
      { transformed := st.transformed, className := cn,
        functionsToAddDecoratorsTo := st.functionsToAddDecoratorsTo }) := by
  cases b with
  | expr e =>
      simp only [noTrigB] at h
      obtain ⟨e', cn1, h1⟩ := ntExpr cx st e h
      exact ⟨.expr e', cn1, by simp [visitBody, h1]⟩
  | block ss =>
      simp only [noTrigB] at h
      obtain ⟨ss', cn1, h1⟩ := ntStmtList cx st ss h
      exact ⟨.block ss', cn1, by simp [visitBody, h1]⟩
termination_by msB b
decreasing_by all_goals
  (subst_vars; simp only [msS, msSL, msMem, msMemL, msE, msEList, msMod, msModL, msB, msOptE, msOptSL]; omega)

end

/-- A unit whose only class is decorated with `@autoModelX`: not the trigger
name `autoModel`, but its text contains `autoModel` as a substring. -/
def unitDisguisedTrigger : SourceFile :=
  { fileName := "x.ts",
    statements := [.classDecl [.decorator (.ident "autoModelX")] (some "C") []] }

/-- C2 counterexample: the claim fails as stated.  `unitDisguisedTrigger`
contains no decorator named `autoModel` and no decorator named `autoFlow`
(and no call expression at all), yet the transform rewrites it — the
substring match on the modifier text fires the class rewriter, so the output
carries an injected import and a `@mobxKs.model("x.ts")` decorator and is not
the original unit. -/
theorem noop_guarantee_counterexample :
    hasDecorator [.decorator (.ident "autoModelX")] "autoModel" = false ∧
    hasDecorator [.decorator (.ident "autoModelX")] autoFlow = false ∧
    visitSourceFile defaultOptions unitDisguisedTrigger =
      .ok { fileName := "x.ts",
            statements := [.importNs mobxNamespaceImport "mobx-keystone",
              .classDecl [.decorator (.call modelExpression [.strLit "x.ts"])]
                (some "C") []] } ∧
    visitSourceFile defaultOptions unitDisguisedTrigger ≠ .ok unitDisguisedTrigger := by
  have hmain : visitSourceFile defaultOptions unitDisguisedTrigger =
      .ok { fileName := "x.ts",
            statements := [.importNs mobxNamespaceImport "mobx-keystone",
              .classDecl [.decorator (.call modelExpression [.strLit "x.ts"])]
                (some "C") []] } := by
    simp [visitSourceFile, addImportMobxStatement, pkgName, defaultOptions,
      unitDisguisedTrigger, visitStmtList, visitStmt, visitMember, visitMemberList,
      visitModList, visitModifier, visitExprList, visitExpr, visitBody,
      autoModelHit, renderMod, renderE, strContains, subAux, List.find?,
      visitClassMods, deriveModelName, List.eraseP,
      mobxNamespaceImport, modelFlowExpression, asyncExpression, awaitExpression,
      modelExpression, createMobxKsPropertyAccessExpression]
  refine ⟨by rfl, by rfl, hmain, ?_⟩
  rw [hmain]
  intro h
  simp [unitDisguisedTrigger] at h

/-- C2 amended: for every unit whose statements are trigger-free in the sense
of `noTrigSL` — no modifier whose rendered text contains the substring
`autoModel`, no decorator that is the bare identifier `autoFlow`, and no call
whose callee is an identifier starting with `autoFlow` — the transform
returns the original input unit itself (the `transformed` flag never fires,
so the working copy with the injected import is discarded). -/
theorem noop_guarantee_amended (options : TOptions) (source : SourceFile)
    (h : noTrigSL source.statements = true) :
    visitSourceFile options source = .ok source := by
  have himp : noTrigSL
      (addImportMobxStatement source (pkgName options)).statements = true := by
    simp [addImportMobxStatement, noTrigSL, noTrigS, h]
  obtain ⟨l', cn, hrun⟩ := ntStmtList
    { deriveName := options.generateModelNameFromFilename, fileName := source.fileName }
    { transformed := false, className := "", functionsToAddDecoratorsTo := [] }
    (addImportMobxStatement source (pkgName options)).statements himp
  simp [visitSourceFile, hrun]

/-- Witness for the amended C2 at a concrete trigger-free unit. -/
theorem noop_guarantee_amended_witness :
    noTrigSL [Stmt.exprStmt (.ident "a")] = true ∧
    visitSourceFile defaultOptions { fileName := "y.ts", statements := [.exprStmt (.ident "a")] }
      = .ok { fileName := "y.ts", statements := [.exprStmt (.ident "a")] } :=
  ⟨by rfl, noop_guarantee_amended defaultOptions _ (by rfl)⟩

/-- A class `T` with the decorated property
`@foo @modelFlow @autoFlow fn = async () => x`: a `modelFlow` decorator is
already present (not in first position) before the rewrite. -/
def unitPreexistingModelFlow : SourceFile :=
  { fileName := "x.ts",
    statements := [.classDecl [] (some "T")
      [.propertyDecl
        [.decorator (.ident "foo"), .decorator (.ident modelFlow),
         .decorator (.ident autoFlow)]
        (.pid "fn") false none
        (some (.arrowFn [.asyncKw] [] none (.expr (.ident "x"))))]] }

/-- Expected output for `unitPreexistingModelFlow`: the `autoFlow` decorator
is dropped, but because a `modelFlow` decorator is already present no target
decorator is prepended, so the first modifier of the rewritten property is
`@foo`, not the flow decorator. -/
def expectedPreexistingModelFlow : SourceFile :=
  { fileName := "x.ts",
    statements := [.importNs mobxNamespaceImport "mobx-keystone",
      .classDecl [] (some "T")
        [.propertyDecl [.decorator (.ident "foo"), .decorator (.ident modelFlow)]
          (.pid "fn") false none
          (some (.call asyncExpression
            [.funcExpr [] true none [{ name := "this", type := some (.typeRef "T") }] none
              (.expr (.ident "x"))]))]] }

/-- C4 counterexample: the claim fails as stated.  A property rewritten via
the decorated-property form whose original modifiers already contain a
`@modelFlow` identifier decorator (not in first position) is emitted with
`@foo` as the first modifier — the target flow decorator is not first. -/
theorem decorator_ordering_counterexample :
    visitSourceFile defaultOptions unitPreexistingModelFlow
      = .ok expectedPreexistingModelFlow ∧
    (ensureDecorators
        [.decorator (.ident "foo"), .decorator (.ident modelFlow),
         .decorator (.ident autoFlow)] modelFlowExpression).head?
      = some (.decorator (.ident "foo")) ∧
    (ModifierL.decorator (.ident "foo")) ≠ .decorator modelFlowExpression ∧
    (ModifierL.decorator (.ident "foo")) ≠ .decorator (.ident modelFlow) := by
  refine ⟨?_, by rfl, by simp [modelFlowExpression, createMobxKsPropertyAccessExpression,
    mobxNamespaceImport], by simp [modelFlow]⟩
  simp [visitSourceFile, addImportMobxStatement, pkgName, defaultOptions,
    unitPreexistingModelFlow, expectedPreexistingModelFlow,
    visitStmtList, visitStmt, visitMember, visitMemberList, visitPropertyInner,
    visitModList, visitModifier, visitExprList, visitExpr, visitBody,
    isIdentText, strStartsWith, propNameText, transformFunction, createNewFunctionBlock,
    replaceYieldBody, replaceYieldSList, replaceYieldS, replaceYieldE, replaceYieldEList,
    isAsyncFunction, hasAsyncMod, isArrowOrFuncExpr, fnParams, fnBody, asPropertyDecl,
    postHocDecorate, convertAnnotatedProperty,
    transformPropertyDeclaration, ensureDecorators, hasDecorator, isSpecificDecorator,
    isAsyncKw, autoFlow, modelFlow, autoModelHit, renderMod, renderE, strContains, subAux,
    List.find?, visitClassMods, deriveModelName, mobxNamespaceImport, modelFlowExpression,
    asyncExpression, awaitExpression, modelExpression, createMobxKsPropertyAccessExpression]

theorem hasDecorator_eq_false_iff (l : List ModifierL) (name : String) :
    hasDecorator l name = false ↔ ∀ m ∈ l, isSpecificDecorator m name = false := by
  simp [hasDecorator, List.isEmpty_iff, List.filter_eq_nil_iff]

/-- C4 amended: for every modifier list, `ensureDecorators` yields a list
with no async keyword and no bare `@autoFlow` decorator, and the target flow
decorator is its first element whenever no decorator named `modelFlow` was
present among the original modifiers (when one was present, the filtered list
is returned as is, so the first element may be an unrelated decorator). -/
theorem decorator_normalization_amended (mods : List ModifierL) :
    (∀ m ∈ ensureDecorators mods modelFlowExpression, isAsyncKw m = false) ∧
    (∀ m ∈ ensureDecorators mods modelFlowExpression,
      isSpecificDecorator m autoFlow = false) ∧
    (hasDecorator mods modelFlow = false →
      (ensureDecorators mods modelFlowExpression).head?
        = some (.decorator modelFlowExpression)) := by
  have hfilter : ∀ m ∈ mods.filter
      (fun x => !(isAsyncKw x) && !(isSpecificDecorator x autoFlow)),
      isAsyncKw m = false ∧ isSpecificDecorator m autoFlow = false := by
    intro m hm
    have := List.of_mem_filter hm
    rw [Bool.and_eq_true] at this
    constructor
    · simpa using this.1
    · simpa using this.2
  refine ⟨?_, ?_, ?_⟩
  · intro m hm
    rw [ensureDecorators] at hm
    split at hm
    · exact (hfilter m hm).1
    · rcases List.mem_cons.mp hm with h | h
      · subst h; rfl
      · exact (hfilter m h).1
  · intro m hm
    rw [ensureDecorators] at hm
    split at hm
    · exact (hfilter m hm).2
    · rcases List.mem_cons.mp hm with h | h
      · subst h
        simp [isSpecificDecorator, modelFlowExpression,
          createMobxKsPropertyAccessExpression, mobxNamespaceImport, isIdentText]
      · exact (hfilter m h).2
  · intro h
    have hres : hasDecorator
        (mods.filter (fun x => !(isAsyncKw x) && !(isSpecificDecorator x autoFlow)))
        modelFlow = false := by
      rw [hasDecorator_eq_false_iff]
      intro m hm
      exact (hasDecorator_eq_false_iff mods modelFlow).mp h m (List.mem_of_mem_filter hm)
    rw [ensureDecorators, hres]
    simp

/-- Witness for the amended C4 at a concrete modifier list carrying the
trigger decorator and the async keyword. -/
theorem decorator_normalization_amended_witness :
    (ensureDecorators [.decorator (.ident autoFlow), .asyncKw] modelFlowExpression).head?
      = some (.decorator modelFlowExpression) :=
  (decorator_normalization_amended [.decorator (.ident autoFlow), .asyncKw]).2.2 (by rfl)

/-- C5 counterexample: the claim's "fires if and only if the class's
annotation list contains the trigger annotation by exact name match" fails.
A class decorated `@autoModelX` has no decorator named exactly `autoModel`,
yet the class identity rewriter fires on it: the decorator is replaced by
`@mobxKs.model("x.ts")` and the `transformed` flag is set. -/
theorem class_trigger_exact_match_counterexample :
    hasDecorator [.decorator (.ident "autoModelX")] "autoModel" = false ∧
    (([.decorator (.ident "autoModelX")] : List ModifierL).find? autoModelHit).isSome
      = true ∧
    visitStmt defaultCtx initState
        (.classDecl [.decorator (.ident "autoModelX")] (some "C") [])
      = .ok (.classDecl [.decorator (.call modelExpression [.strLit "x.ts"])]
            (some "C") [],
          { transformed := true, className := "C", functionsToAddDecoratorsTo := [] }) := by
  refine ⟨by rfl, by rfl, ?_⟩
  simp [visitStmt, visitModList, visitModifier, visitExpr, visitExprList,
    visitMemberList, autoModelHit, renderMod, renderE, strContains, subAux,
    List.find?, visitClassMods, deriveModelName, List.eraseP, initState, defaultCtx,
    mobxNamespaceImport, modelExpression, createMobxKsPropertyAccessExpression]

/-- C5 amended: the class identity rewriter fires exactly when some modifier's
rendered text contains the substring `autoModel` (not only on an exact name
match); when it fires, the first such modifier is removed, and a `model`
decorator is appended whose sole argument is the configured name-derivation
function applied to the unit's file path — the raw file path verbatim when no
function is configured (shown at path `a/b/Test.ts`, with and without a
derivation function). -/
theorem class_trigger_substring_amended :
    (∀ mods : List ModifierL, (mods.find? autoModelHit).isSome = true ↔
        ∃ m ∈ mods, strContains (renderMod m) "autoModel" = true) ∧
    visitStmt { deriveName := none, fileName := "a/b/Test.ts" } initState
        (.classDecl [.decorator (.ident "autoModel")] (some "Test") [])
      = .ok (.classDecl [.decorator (.call modelExpression [.strLit "a/b/Test.ts"])]
            (some "Test") [],
          { transformed := true, className := "Test",
            functionsToAddDecoratorsTo := [] }) ∧
    visitStmt
        { deriveName := some (fun s => String.append s "!"), fileName := "a/b/Test.ts" }
        initState
        (.classDecl [.decorator (.ident "autoModel")] (some "Test") [])
      = .ok (.classDecl [.decorator (.call modelExpression [.strLit "a/b/Test.ts!"])]
            (some "Test") [],
          { transformed := true, className := "Test",
            functionsToAddDecoratorsTo := [] }) := by
  refine ⟨?_, ?_, ?_⟩
  · intro mods
    rw [List.find?_isSome]
    simp [autoModelHit]
  · simp [visitStmt, visitModList, visitModifier, visitExpr, visitExprList,
      visitMemberList, autoModelHit, renderMod, renderE, strContains, subAux,
      List.find?, visitClassMods, deriveModelName, List.eraseP, initState,
      mobxNamespaceImport, modelExpression, createMobxKsPropertyAccessExpression]
  · simp only [visitStmt, visitModList, visitModifier, visitExpr, visitExprList,
      visitMemberList, autoModelHit, renderMod, renderE, strContains, subAux,
      List.find?, visitClassMods, deriveModelName, List.eraseP, initState,
      mobxNamespaceImport, modelExpression, createMobxKsPropertyAccessExpression]
    rw [show ("a/b/Test.ts".append "!" : String) = "a/b/Test.ts!" from by decide]
    simp [visitModList, visitModifier, visitExpr, visitExprList]

/-- Witness for the amended C5: the firing criterion instantiated at the
substring-only decorator `@autoModelX`. -/
theorem class_trigger_substring_amended_witness :
    (([.decorator (.ident "autoModelX")] : List ModifierL).find? autoModelHit).isSome
      = true :=
  (class_trigger_substring_amended.1 [.decorator (.ident "autoModelX")]).mpr
    ⟨.decorator (.ident "autoModelX"), by simp, by rfl⟩

/-- A unit with `@autoModel class C { p = autoFlow("x") }`: the trigger call's
sole argument is a string literal, not a function value, and another rewrite
(the class trigger) fires in the same unit. -/
def unitWrapperNonFunction : SourceFile :=
  { fileName := "x.ts",
    statements := [.classDecl [.decorator (.ident "autoModel")] (some "C")
      [.propertyDecl [] (.pid "p") false none
        (some (.call (.ident "autoFlow") [.strLit "x"]))]] }

/-- Expected output for `unitWrapperNonFunction`: the property keeps its
initializer, but its modifier list gains a `@mobxKs.modelFlow` decorator —
it is not left completely unchanged. -/
def expectedWrapperNonFunction : SourceFile :=
  { fileName := "x.ts",
    statements := [.importNs mobxNamespaceImport "mobx-keystone",
      .classDecl [.decorator (.call modelExpression [.strLit "x.ts"])] (some "C")
        [.propertyDecl [.decorator modelFlowExpression] (.pid "p") false none
          (some (.call (.ident "autoFlow") [.strLit "x"]))]] }

/-- C8 counterexample: the claim fails as stated.  In
`unitWrapperNonFunction` the property `p = autoFlow("x")` has a trigger call
with a non-function sole argument; the class trigger also fires, so the
returned unit shows `p` re-emitted with an added `@mobxKs.modelFlow`
decorator — its modifier list is not unchanged. -/
theorem wrapper_nonfunction_counterexample :
    visitSourceFile defaultOptions unitWrapperNonFunction
      = .ok expectedWrapperNonFunction ∧
    ([ModifierL.decorator modelFlowExpression] : List ModifierL) ≠ [] := by
  refine ⟨?_, by simp⟩
  simp [visitSourceFile, addImportMobxStatement, pkgName, defaultOptions,
    unitWrapperNonFunction, expectedWrapperNonFunction,
    visitStmtList, visitStmt, visitMember, visitMemberList, visitPropertyInner,
    visitModList, visitModifier, visitExprList, visitExpr, visitBody,
    isIdentText, strStartsWith, propNameText, asPropertyDecl,
    postHocDecorate, convertAnnotatedProperty, isArrowOrFuncExpr,
    transformPropertyDeclaration, ensureDecorators, hasDecorator, isSpecificDecorator,
    isAsyncKw, autoFlow, modelFlow, autoModelHit, renderMod, renderE, strContains, subAux,
    List.find?, visitClassMods, deriveModelName, List.eraseP,
    mobxNamespaceImport, modelFlowExpression,
    asyncExpression, awaitExpression, modelExpression, createMobxKsPropertyAccessExpression]

/-- C8 amended: a property whose initializer is a trigger call with a
non-function sole argument raises no error and keeps its initializer, but it
is not left completely unchanged: its name is recorded and the property is
re-emitted with `ensureDecorators` applied to its modifiers (prepending the
flow decorator unless one is present).  Only when no rewrite fires anywhere
in the unit does the discarded working copy make this externally invisible. -/
theorem wrapper_nonfunction_amended (cx : VisitCtx) (st : VState) (mods : List ModifierL)
    (name : PropName) (q : Bool) (ty : Option TypeN) (callee : Expr) (t : String)
    (a : Expr) (rest : List Expr)
    (hid : isIdentText callee = some t) (hpre : strStartsWith t autoFlow = true)
    (hnf : isArrowOrFuncExpr a = false) :
    visitMember cx st (.propertyDecl mods name q ty (some (.call callee (a :: rest))))
      = .ok (.propertyDecl (ensureDecorators mods modelFlowExpression) name q ty
          (some (.call callee (a :: rest))),
        { transformed := st.transformed, className := st.className,
          functionsToAddDecoratorsTo :=
            st.functionsToAddDecoratorsTo ++ [propNameText name] }) := by
  have hmem : propNameText name ∈ st.functionsToAddDecoratorsTo ++ [propNameText name] :=
    List.mem_append_right _ (List.mem_singleton.mpr rfl)
  simp [visitMember, visitPropertyInner, hid, hpre, hnf, hmem,
    postHocDecorate, asPropertyDecl, transformPropertyDeclaration]

/-- Witness for the amended C8 at `p = autoFlow("x")`. -/
theorem wrapper_nonfunction_amended_witness :
    visitMember defaultCtx initState
        (.propertyDecl [] (.pid "p") false none
          (some (.call (.ident "autoFlow") [.strLit "x"])))
      = .ok (.propertyDecl (ensureDecorators [] modelFlowExpression) (.pid "p") false none
          (some (.call (.ident "autoFlow") [.strLit "x"])),
        { transformed := initState.transformed, className := initState.className,
          functionsToAddDecoratorsTo :=
            initState.functionsToAddDecoratorsTo ++ [propNameText (.pid "p")] }) :=
  wrapper_nonfunction_amended defaultCtx initState [] (.pid "p") false none
    (.ident "autoFlow") "autoFlow" (.strLit "x") [] (by rfl) (by rfl) (by rfl)

end AutoFlow
